import Mathlib

/-!
Verification of the `JSON::JSONBuilder` streaming serializer
(`Source/JSON/JSONBuilder.h`).

The builder state (`std::string buf; size_t cursor; bool need_comma;`) is
embedded as a `Builder` structure whose buffer is a `List Nat` of bytes:
the list's length plays the role of `buf.size()` (the writable region,
since all writes go through `operator[]` below `buf.size()`), `cursor` is
the next free offset and `need_comma` the pending-separator flag.  Every
method of the class is translated to a function `Builder → Builder`
following the source line by line: `ensure` models `std::string::resize`
(growing by zero-filling), `writeRaw`/`writeByte` model `memcpy` /
`buf[cursor++] = c` as in-place overwrites via `setBytes`.
-/

namespace JSONB

/-- Builder state: the bytes of `buf` (length = `buf.size()`), the write
cursor, and the pending-comma flag. -/
structure Builder where
  buf : List Nat
  cursor : Nat
  need_comma : Bool

/-- Overwrite `data.length` bytes of `buf` starting at `pos`
(the effect of `memcpy(&buf[pos], data, len)`). -/
def setBytes (buf : List Nat) (pos : Nat) (data : List Nat) : List Nat :=
  buf.take pos ++ data ++ buf.drop (pos + data.length)

/-- The capacity invariant: the cursor never passes the writable region. -/
def Wf (b : Builder) : Prop := b.cursor ≤ b.buf.length

/-- `JSONBuilder()` : cursor 0, flag false, buffer pre-sized to 1024. -/
def Builder.init : Builder :=
  { buf := List.replicate 1024 0, cursor := 0, need_comma := false }

/-- `ensure(len)`: if `cursor + len >= buf.size()` resize the buffer to
`max(buf.size()*2, cursor + len + 64)` (resize pads with zero bytes). -/
def ensure (len : Nat) (b : Builder) : Builder :=
  if b.cursor + len ≥ b.buf.length then
    let target := max (b.buf.length * 2) (b.cursor + len + 64)
    { b with buf := b.buf ++ List.replicate (target - b.buf.length) 0 }
  else b

/-- `writeRaw(data, len)`: `memcpy` at the cursor, then advance it. -/
def writeRaw (data : List Nat) (b : Builder) : Builder :=
  { b with buf := setBytes b.buf b.cursor data, cursor := b.cursor + data.length }

/-- `buf[cursor++] = c`. -/
def writeByte (c : Nat) (b : Builder) : Builder :=
  { b with buf := setBytes b.buf b.cursor [c], cursor := b.cursor + 1 }

/-- `comma()`: emit `','` when the flag is set; always set it afterwards. -/
def comma (b : Builder) : Builder :=
  let b1 := if b.need_comma then writeByte 44 (ensure 1 b) else b
  { b1 with need_comma := true }

/-- `appendKeyImpl(k, len)`: ensure, optional comma, `"k":`, clear the flag. -/
def appendKeyImpl (k : List Nat) (b : Builder) : Builder :=
  let b1 := ensure (k.length + 4) b
  let b2 := if b1.need_comma then writeByte 44 b1 else b1
  let b3 := writeByte 34 b2
  let b4 := writeRaw k b3
  let b5 := writeByte 34 b4
  let b6 := writeByte 58 b5
  { b6 with need_comma := false }

/-- The `switch` of `escapeString`: the two-byte replacement for the seven
JSON-mandated escapes, `none` for every other byte. -/
def repl (c : Nat) : Option (List Nat) :=
  if c = 34 then some [92, 34]
  else if c = 92 then some [92, 92]
  else if c = 8 then some [92, 98]
  else if c = 12 then some [92, 102]
  else if c = 10 then some [92, 110]
  else if c = 13 then some [92, 114]
  else if c = 9 then some [92, 116]
  else none

/-- `(s + a).take (bnd - a)` : the bytes of `s` in positions `[a, bnd)`,
as copied by `memcpy(&buf[cursor], s + a, bnd - a)`. -/
def slice (s : List Nat) (a bnd : Nat) : List Nat :=
  (s.drop a).take (bnd - a)

/-- The scanning loop of `escapeString` with its run-start bookkeeping:
returns the builder after the loop together with the final `start`. -/
def escLoop (s : List Nat) (i start : Nat) (b : Builder) : Builder × Nat :=
  if h : i < s.length then
    let c := s.get ⟨i, h⟩
    match repl c with
    | some r =>
      let b1 := if start < i then writeRaw (slice s start i) b else b
      let b2 := writeRaw r b1
      escLoop s (i + 1) (i + 1) b2
    | none =>
      if c < 32 then
        let b1 := if start < i then writeRaw (slice s start i) b else b
        escLoop s (i + 1) (i + 1) b1
      else
        escLoop s (i + 1) start b
  else (b, start)
termination_by s.length - i
decreasing_by all_goals omega

/-- The final run flush of `escapeString`:
`if (start < len) memcpy(&buf[cursor], s + start, len - start)`. -/
def flushTail (s : List Nat) (p : Builder × Nat) : Builder :=
  if p.2 < s.length then writeRaw (slice s p.2 s.length) p.1 else p.1

/-- `escapeString(s, len)`: quote, scan with run flushing, flush tail, quote. -/
def escapeString (s : List Nat) (b : Builder) : Builder :=
  let b1 := ensure (s.length * 2 + 2) b
  let b2 := writeByte 34 b1
  let b3 := flushTail s (escLoop s 0 0 b2)
  writeByte 34 b3

/-- The digit loop of `writeInt`/`writeUInt`: prepend `'0' + n % 10` while
dividing by 10 (the scratch array written most-significant-first). -/
def digitLoop (n : Nat) (acc : List Nat) : List Nat :=
  if h : n = 0 then acc else digitLoop (n / 10) ((48 + n % 10) :: acc)
termination_by n
decreasing_by exact Nat.div_lt_self (Nat.pos_of_ne_zero h) (by decide)

/-- `writeInt<T>(value)` for a signed type of `w` bits: special-case 0,
else write `'-'` and negate through the unsigned cast for negatives, then
the digits of the unsigned magnitude.  The unsigned cast of `v` is
`v mod 2^w`; unsigned negation is again mod `2^w`. -/
def writeInt (w : Nat) (v : Int) (b : Builder) : Builder :=
  let b1 := ensure 24 b
  if v = 0 then writeByte 48 b1
  else if v < 0 then
    let b2 := writeByte 45 b1
    let uval := (2 ^ w - (v % (2 ^ w : Int)).toNat) % 2 ^ w
    writeRaw (digitLoop uval []) b2
  else
    writeRaw (digitLoop ((v % (2 ^ w : Int)).toNat) []) b1

/-- `writeNull()`: `null`. -/
def writeNull (b : Builder) : Builder :=
  let b1 := ensure 4 b
  writeRaw [110, 117, 108, 108] b1

/-- `clear()`: reset cursor and flag, keep the buffer. -/
def clear (b : Builder) : Builder :=
  { b with cursor := 0, need_comma := false }

/-- `str()`: copy of the bytes from offset 0 to the cursor. -/
def str (b : Builder) : List Nat := b.buf.take b.cursor

/-- `size()`. -/
def size (b : Builder) : Nat := b.cursor

/-- `start()`: optional comma, `'{'`, clear the flag. -/
def start (b : Builder) : Builder :=
  let b1 := comma b
  let b2 := ensure 1 b1
  let b3 := writeByte 123 b2
  { b3 with need_comma := false }

/-- `end()`: `'}'`, set the flag (no comma call). -/
def end_ (b : Builder) : Builder :=
  let b1 := ensure 1 b
  let b2 := writeByte 125 b1
  { b2 with need_comma := true }

/-- `startArray()`: optional comma, `'['`, clear the flag. -/
def startArray (b : Builder) : Builder :=
  let b1 := comma b
  let b2 := ensure 1 b1
  let b3 := writeByte 91 b2
  { b3 with need_comma := false }

/-- `endArray()`: `']'`, set the flag. -/
def endArray (b : Builder) : Builder :=
  let b1 := ensure 1 b
  let b2 := writeByte 93 b1
  { b2 with need_comma := true }

/-- `key(k)`. -/
def key (k : List Nat) (b : Builder) : Builder := appendKeyImpl k b

/-- Runtime-key `add(k, v)` for a signed integer of `w` bits. -/
def addInt (k : List Nat) (w : Nat) (v : Int) (b : Builder) : Builder :=
  let b1 := writeInt w v (appendKeyImpl k b)
  { b1 with need_comma := true }

/-- Runtime-key `addString(k, v)` (escaped). -/
def addString (k v : List Nat) (b : Builder) : Builder :=
  let b1 := escapeString v (appendKeyImpl k b)
  { b1 with need_comma := true }

/-- Runtime-key `addNull(k)`. -/
def addNull (k : List Nat) (b : Builder) : Builder :=
  let b1 := writeNull (appendKeyImpl k b)
  { b1 with need_comma := true }

/-- `addOrNull(k, val, undefined)` at integer type: `null` when the value
equals the caller's sentinel, else the normal integer encoding. -/
def addOrNull (k : List Nat) (w : Nat) (v u : Int) (b : Builder) : Builder :=
  let b1 := appendKeyImpl k b
  let b2 := if v = u then writeNull b1 else writeInt w v b1
  { b2 with need_comma := true }

/-- Runtime-key `addStringOrNull(k, val)`: `null` on the empty string. -/
def addStringOrNull (k s : List Nat) (b : Builder) : Builder :=
  let b1 := appendKeyImpl k b
  let b2 := if s = [] then writeNull b1 else escapeString s b1
  { b2 with need_comma := true }

/-- The inlined key prelude shared by the literal-key `add` overloads:
`ensure(N + extra)` with `N = k.length + 1` (the array size includes the
terminator), optional comma, then `"k":`.  The flag is not touched here. -/
def keyLit (k : List Nat) (extra : Nat) (b : Builder) : Builder :=
  let b1 := ensure (k.length + 1 + extra) b
  let b2 := if b1.need_comma then writeByte 44 b1 else b1
  let b3 := writeByte 34 b2
  let b4 := writeRaw k b3
  let b5 := writeByte 34 b4
  writeByte 58 b5

/-- Literal-key `add(k, v)` for a signed integer of `w` bits
(`ensure(N + 27)` then the inline key and `writeInt`). -/
def addIntLit (k : List Nat) (w : Nat) (v : Int) (b : Builder) : Builder :=
  let b1 := writeInt w v (keyLit k 27 b)
  { b1 with need_comma := true }

/-- Literal-key `addString(k, v)` (`ensure(N + 3)`). -/
def addStringLit (k v : List Nat) (b : Builder) : Builder :=
  let b1 := escapeString v (keyLit k 3 b)
  { b1 with need_comma := true }

/-- Literal-key `addStringOrNull(k, val)` on `std::string`. -/
def addStringOrNullLit (k s : List Nat) (b : Builder) : Builder :=
  let b1 := keyLit k 3 b
  let b2 := if s = [] then writeNull b1 else escapeString s b1
  { b2 with need_comma := true }

/-- Literal-key `addStringOrNull(k, val)` on `const char*`: `none` models
the `NULL` pointer, `some t` a C string with byte content `t`
(`val[0] == '\0'` iff `t = []`). -/
def addStringOrNullLitC (k : List Nat) (s : Option (List Nat)) (b : Builder) : Builder :=
  let b1 := keyLit k 3 b
  let b2 := match s with
    | none => writeNull b1
    | some t => if t = [] then writeNull b1 else escapeString t b1
  { b2 with need_comma := true }

/-- `addIf(condition, k, val)` at integer type. -/
def addIf (c : Bool) (k : List Nat) (w : Nat) (v : Int) (b : Builder) : Builder :=
  if c then addIntLit k w v b else b

/-- `addStringIf(condition, k, val)`. -/
def addStringIf (c : Bool) (k s : List Nat) (b : Builder) : Builder :=
  if c then addStringLit k s b else b

/-- `value(v)` for a signed integer of `w` bits. -/
def valueInt (w : Nat) (v : Int) (b : Builder) : Builder :=
  writeInt w v (comma b)

/-- `value(v)` on text (escaped). -/
def valueString (s : List Nat) (b : Builder) : Builder :=
  escapeString s (comma b)

/-- `valueNull()`. -/
def valueNull (b : Builder) : Builder :=
  writeNull (comma b)

/-- `valueOrNull(val, undefined)` at integer type. -/
def valueOrNull (w : Nat) (v u : Int) (b : Builder) : Builder :=
  let b1 := comma b
  if v = u then writeNull b1 else writeInt w v b1

/-- `valueStringOrNull(val)` on `std::string`. -/
def valueStringOrNull (s : List Nat) (b : Builder) : Builder :=
  let b1 := comma b
  if s = [] then writeNull b1 else escapeString s b1

/-- `valueStringOrNull(val)` on `const char*` (`none` models `NULL`). -/
def valueStringOrNullC (s : Option (List Nat)) (b : Builder) : Builder :=
  let b1 := comma b
  match s with
  | none => writeNull b1
  | some t => if t = [] then writeNull b1 else escapeString t b1

/-! ### Pure emission functions (what each operation appends to the output) -/

/-- Bytes `comma()` emits as a function of the incoming flag. -/
def commaEmit (f : Bool) : List Nat := if f then [44] else []

/-- Per-byte effect of `escapeString`: the two-byte escape for the seven
named characters, nothing for any other control byte below 0x20 (the
source drops these), the byte itself otherwise. -/
def escChar (c : Nat) : List Nat :=
  match repl c with
  | some r => r
  | none => if c < 32 then [] else [c]

/-- Byte-wise escape of a whole string (contents between the quotes). -/
def escSpec : List Nat → List Nat
  | [] => []
  | c :: t => escChar c ++ escSpec t

/-- The quoted escaped form of `s`. -/
def strEmit (s : List Nat) : List Nat := 34 :: (escSpec s ++ [34])

/-- Bytes of the `null` literal. -/
def nullBytes : List Nat := [110, 117, 108, 108]

/-- Bytes a key emission appends: optional comma, `"k":`. -/
def keyEmit (f : Bool) (k : List Nat) : List Nat :=
  commaEmit f ++ 34 :: (k ++ [34, 58])

/-- Bytes `writeInt` emits. -/
def writeIntBytes (w : Nat) (v : Int) : List Nat :=
  if v = 0 then [48]
  else if v < 0 then 45 :: digitLoop ((2 ^ w - (v % (2 ^ w : Int)).toNat) % 2 ^ w) []
  else digitLoop ((v % (2 ^ w : Int)).toNat) []

/-! ### Primitive append lemmas -/

theorem ensure_length (n : Nat) (b : Builder) :
    (ensure n b).buf.length =
      if b.cursor + n ≥ b.buf.length then max (b.buf.length * 2) (b.cursor + n + 64)
      else b.buf.length := by
  unfold ensure
  split
  · simp only [List.length_append, List.length_replicate]
    omega
  · simp_all

theorem ensure_cursor (n : Nat) (b : Builder) : (ensure n b).cursor = b.cursor := by
  unfold ensure; split <;> rfl

theorem ensure_flag (n : Nat) (b : Builder) : (ensure n b).need_comma = b.need_comma := by
  unfold ensure; split <;> rfl

theorem ensure_len_ge (n : Nat) (b : Builder) : b.buf.length ≤ (ensure n b).buf.length := by
  rw [ensure_length]; split <;> omega

theorem ensure_cap (n : Nat) (b : Builder) : b.cursor + n < (ensure n b).buf.length := by
  rw [ensure_length]; split <;> omega

theorem ensure_grow (n : Nat) (b : Builder)
    (h : (ensure n b).buf.length ≠ b.buf.length) :
    2 * b.buf.length ≤ (ensure n b).buf.length := by
  rw [ensure_length] at h ⊢
  by_cases hc : b.cursor + n ≥ b.buf.length <;> simp [hc] at h ⊢ <;> omega

theorem ensure_str (n : Nat) (b : Builder) (h : Wf b) : str (ensure n b) = str b := by
  unfold ensure
  split
  · simp only [str, ensure]
    exact List.take_append_of_le_length h
  · rfl

theorem ensure_wf (n : Nat) (b : Builder) (h : Wf b) : Wf (ensure n b) := by
  have := ensure_cap n b
  have := ensure_cursor n b
  unfold Wf at *; omega

theorem writeRaw_spec (data : List Nat) (b : Builder)
    (h : b.cursor + data.length ≤ b.buf.length) :
    (writeRaw data b).buf.length = b.buf.length ∧
    (writeRaw data b).cursor = b.cursor + data.length ∧
    (writeRaw data b).need_comma = b.need_comma ∧
    str (writeRaw data b) = str b ++ data := by
  have hc : b.cursor ≤ b.buf.length := by omega
  refine ⟨?_, rfl, rfl, ?_⟩
  · simp only [writeRaw, setBytes, List.length_append, List.length_take,
      List.length_drop]
    omega
  · have hxs : (b.buf.take b.cursor ++ data).length = b.cursor + data.length := by
      simp only [List.length_append, List.length_take]
      omega
    simp only [str, writeRaw, setBytes]
    rw [← hxs, List.take_append_of_le_length (le_refl _), List.take_length]

theorem writeByte_eq (c : Nat) (b : Builder) : writeByte c b = writeRaw [c] b := rfl

theorem writeRaw_chain (d1 d2 : List Nat) (x : Builder) (h : x.cursor ≤ x.buf.length) :
    writeRaw d2 (writeRaw d1 x) = writeRaw (d1 ++ d2) x := by
  cases x with
  | mk buf cur fl =>
    simp only [Wf] at h
    have h1 : (List.take cur buf ++ d1).length = cur + d1.length := by
      simp only [List.length_append, List.length_take]
      omega
    have htake : List.take (cur + d1.length)
        (List.take cur buf ++ d1 ++ List.drop (cur + d1.length) buf) =
        List.take cur buf ++ d1 := by
      rw [← h1, List.take_append_of_le_length (le_refl _), List.take_length]
    have hdrop : List.drop (cur + d1.length + d2.length)
        (List.take cur buf ++ d1 ++ List.drop (cur + d1.length) buf) =
        List.drop (cur + d1.length + d2.length) buf := by
      have h2 : cur + d1.length + d2.length =
          (List.take cur buf ++ d1).length + d2.length := by omega
      conv_lhs => rw [h2]
      rw [List.drop_append, List.drop_drop]
    simp only [writeRaw, setBytes, Builder.mk.injEq]
    rw [htake, hdrop]
    refine ⟨?_, by simp only [List.length_append]; omega, trivial⟩
    simp only [List.length_append, List.append_assoc, Nat.add_assoc]

theorem keyWrites (k : List Nat) (x : Builder) (h : Wf x) :
    writeByte 58 (writeByte 34 (writeRaw k (writeByte 34 x))) =
    writeRaw (34 :: (k ++ [34, 58])) x := by
  simp only [writeByte_eq]
  rw [writeRaw_chain [34] k x h, writeRaw_chain _ [34] x h, writeRaw_chain _ [58] x h]
  simp

theorem comma_spec (b : Builder) (h : Wf b) :
    str (comma b) = str b ++ commaEmit b.need_comma ∧
    (comma b).need_comma = true ∧
    (comma b).cursor = b.cursor + (commaEmit b.need_comma).length ∧
    b.buf.length ≤ (comma b).buf.length ∧ Wf (comma b) := by
  by_cases hf : b.need_comma
  · have hcap := ensure_cap 1 b
    have hcur := ensure_cursor 1 b
    have hlen := ensure_len_ge 1 b
    have hstr := ensure_str 1 b h
    obtain ⟨w1, w2, w3, w4⟩ := writeRaw_spec [44] (ensure 1 b) (by simp; omega)
    have hcb : comma b = { writeRaw [44] (ensure 1 b) with need_comma := true } := by
      simp only [comma, hf, if_true, writeByte_eq]
    rw [hcb]
    refine ⟨?_, rfl, ?_, ?_, ?_⟩
    · show str (writeRaw [44] (ensure 1 b)) = str b ++ commaEmit b.need_comma
      rw [w4, hstr]; simp [commaEmit, hf]
    · show (writeRaw [44] (ensure 1 b)).cursor = b.cursor + (commaEmit b.need_comma).length
      rw [w2, hcur]; simp [commaEmit, hf]
    · show b.buf.length ≤ (writeRaw [44] (ensure 1 b)).buf.length
      omega
    · show (writeRaw [44] (ensure 1 b)).cursor ≤ (writeRaw [44] (ensure 1 b)).buf.length
      rw [w2, w1, hcur]; simp; omega
  · have hcb : comma b = { b with need_comma := true } := by
      simp [comma, hf]
    rw [hcb]
    refine ⟨?_, rfl, ?_, le_refl _, h⟩
    · show str b = str b ++ commaEmit b.need_comma
      simp [commaEmit, hf]
    · show b.cursor = b.cursor + (commaEmit b.need_comma).length
      simp [commaEmit, hf]

theorem appendKeyImpl_spec (k : List Nat) (b : Builder) (h : Wf b) :
    str (appendKeyImpl k b) = str b ++ keyEmit b.need_comma k ∧
    (appendKeyImpl k b).need_comma = false ∧
    (appendKeyImpl k b).cursor = b.cursor + (keyEmit b.need_comma k).length ∧
    b.buf.length ≤ (appendKeyImpl k b).buf.length ∧ Wf (appendKeyImpl k b) := by
  have hcap := ensure_cap (k.length + 4) b
  have hcur := ensure_cursor (k.length + 4) b
  have hflag := ensure_flag (k.length + 4) b
  have hlen := ensure_len_ge (k.length + 4) b
  have hstr := ensure_str (k.length + 4) b h
  have hwfe : Wf (ensure (k.length + 4) b) := by unfold Wf at *; omega
  by_cases hf : b.need_comma
  · obtain ⟨c1, c2, c3, c4⟩ := writeRaw_spec [44] (ensure (k.length + 4) b)
      (by simp; omega)
    have hwf2 : Wf (writeRaw [44] (ensure (k.length + 4) b)) := by
      unfold Wf
      rw [c1, c2, hcur]
      simp only [List.length_cons, List.length_nil]
      omega
    have hD : [44] ++ (34 :: (k ++ [34, 58])) = keyEmit b.need_comma k := by
      simp [keyEmit, commaEmit, hf]
    have h2 : appendKeyImpl k b =
        { writeRaw (keyEmit b.need_comma k) (ensure (k.length + 4) b)
          with need_comma := false } := by
      show { writeByte 58 (writeByte 34 (writeRaw k (writeByte 34
        (if (ensure (k.length + 4) b).need_comma = true
          then writeByte 44 (ensure (k.length + 4) b)
          else ensure (k.length + 4) b)))) with need_comma := false } = _
      rw [hflag, hf, if_pos rfl, writeByte_eq 44,
        keyWrites k _ hwf2, writeRaw_chain [44] _ _ hwfe, hD, hf]
    obtain ⟨w1, w2, w3, w4⟩ := writeRaw_spec (keyEmit b.need_comma k)
      (ensure (k.length + 4) b)
      (by simp [keyEmit, commaEmit, hf]; omega)
    rw [h2]
    refine ⟨?_, rfl, ?_, ?_, ?_⟩
    · show str (writeRaw (keyEmit b.need_comma k) (ensure (k.length + 4) b)) = _
      rw [w4, hstr]
    · show (writeRaw (keyEmit b.need_comma k) (ensure (k.length + 4) b)).cursor = _
      rw [w2, hcur]
    · show b.buf.length ≤
        (writeRaw (keyEmit b.need_comma k) (ensure (k.length + 4) b)).buf.length
      omega
    · show (writeRaw (keyEmit b.need_comma k) (ensure (k.length + 4) b)).cursor ≤
        (writeRaw (keyEmit b.need_comma k) (ensure (k.length + 4) b)).buf.length
      rw [w1, w2, hcur]
      simp only [keyEmit, commaEmit, hf, if_pos]
      simp
      omega
  · have hD : (34 :: (k ++ [34, 58])) = keyEmit b.need_comma k := by
      simp [keyEmit, commaEmit, hf]
    have h2 : appendKeyImpl k b =
        { writeRaw (keyEmit b.need_comma k) (ensure (k.length + 4) b)
          with need_comma := false } := by
      show { writeByte 58 (writeByte 34 (writeRaw k (writeByte 34
        (if (ensure (k.length + 4) b).need_comma = true
          then writeByte 44 (ensure (k.length + 4) b)
          else ensure (k.length + 4) b)))) with need_comma := false } = _
      rw [hflag]
      simp only [hf, if_false, Bool.false_eq_true]
      rw [keyWrites k _ hwfe]
      simp [keyEmit, commaEmit, hf]
    obtain ⟨w1, w2, w3, w4⟩ := writeRaw_spec (keyEmit b.need_comma k)
      (ensure (k.length + 4) b)
      (by simp [keyEmit, commaEmit, hf]; omega)
    rw [h2]
    refine ⟨?_, rfl, ?_, ?_, ?_⟩
    · show str (writeRaw (keyEmit b.need_comma k) (ensure (k.length + 4) b)) = _
      rw [w4, hstr]
    · show (writeRaw (keyEmit b.need_comma k) (ensure (k.length + 4) b)).cursor = _
      rw [w2, hcur]
    · show b.buf.length ≤
        (writeRaw (keyEmit b.need_comma k) (ensure (k.length + 4) b)).buf.length
      omega
    · show (writeRaw (keyEmit b.need_comma k) (ensure (k.length + 4) b)).cursor ≤
        (writeRaw (keyEmit b.need_comma k) (ensure (k.length + 4) b)).buf.length
      rw [w1, w2, hcur]
      simp only [keyEmit, commaEmit, hf, if_neg]
      simp
      omega

theorem keyLit_spec (k : List Nat) (extra : Nat) (b : Builder) (h : Wf b)
    (hx : 3 ≤ extra) :
    str (keyLit k extra b) = str b ++ keyEmit b.need_comma k ∧
    (keyLit k extra b).need_comma = b.need_comma ∧
    (keyLit k extra b).cursor = b.cursor + (keyEmit b.need_comma k).length ∧
    b.buf.length ≤ (keyLit k extra b).buf.length ∧ Wf (keyLit k extra b) := by
  have hcap := ensure_cap (k.length + 1 + extra) b
  have hcur := ensure_cursor (k.length + 1 + extra) b
  have hflag := ensure_flag (k.length + 1 + extra) b
  have hlen := ensure_len_ge (k.length + 1 + extra) b
  have hstr := ensure_str (k.length + 1 + extra) b h
  have hwfe : Wf (ensure (k.length + 1 + extra) b) := by unfold Wf at *; omega
  by_cases hf : b.need_comma
  · obtain ⟨c1, c2, c3, c4⟩ := writeRaw_spec [44] (ensure (k.length + 1 + extra) b)
      (by simp; omega)
    have hwf2 : Wf (writeRaw [44] (ensure (k.length + 1 + extra) b)) := by
      unfold Wf
      rw [c1, c2, hcur]
      simp only [List.length_cons, List.length_nil]
      omega
    have hD : [44] ++ (34 :: (k ++ [34, 58])) = keyEmit b.need_comma k := by
      simp [keyEmit, commaEmit, hf]
    have h2 : keyLit k extra b =
        writeRaw (keyEmit b.need_comma k) (ensure (k.length + 1 + extra) b) := by
      show writeByte 58 (writeByte 34 (writeRaw k (writeByte 34
        (if (ensure (k.length + 1 + extra) b).need_comma = true
          then writeByte 44 (ensure (k.length + 1 + extra) b)
          else ensure (k.length + 1 + extra) b)))) = _
      rw [hflag, hf, if_pos rfl, writeByte_eq 44,
        keyWrites k _ hwf2, writeRaw_chain [44] _ _ hwfe, hD, hf]
    obtain ⟨w1, w2, w3, w4⟩ := writeRaw_spec (keyEmit b.need_comma k)
      (ensure (k.length + 1 + extra) b)
      (by simp [keyEmit, commaEmit, hf]; omega)
    rw [h2]
    refine ⟨by rw [w4, hstr], by rw [w3, hflag], by rw [w2, hcur], by omega, ?_⟩
    show (writeRaw (keyEmit b.need_comma k) (ensure (k.length + 1 + extra) b)).cursor ≤
      (writeRaw (keyEmit b.need_comma k) (ensure (k.length + 1 + extra) b)).buf.length
    rw [w1, w2, hcur]
    simp only [keyEmit, commaEmit, hf, if_pos]
    simp
    omega
  · have hD : (34 :: (k ++ [34, 58])) = keyEmit b.need_comma k := by
      simp [keyEmit, commaEmit, hf]
    have h2 : keyLit k extra b =
        writeRaw (keyEmit b.need_comma k) (ensure (k.length + 1 + extra) b) := by
      show writeByte 58 (writeByte 34 (writeRaw k (writeByte 34
        (if (ensure (k.length + 1 + extra) b).need_comma = true
          then writeByte 44 (ensure (k.length + 1 + extra) b)
          else ensure (k.length + 1 + extra) b)))) = _
      rw [hflag]
      simp only [hf, if_false, Bool.false_eq_true]
      rw [keyWrites k _ hwfe]
      simp [keyEmit, commaEmit, hf]
    obtain ⟨w1, w2, w3, w4⟩ := writeRaw_spec (keyEmit b.need_comma k)
      (ensure (k.length + 1 + extra) b)
      (by simp [keyEmit, commaEmit, hf]; omega)
    rw [h2]
    refine ⟨by rw [w4, hstr], by rw [w3, hflag], by rw [w2, hcur], by omega, ?_⟩
    show (writeRaw (keyEmit b.need_comma k) (ensure (k.length + 1 + extra) b)).cursor ≤
      (writeRaw (keyEmit b.need_comma k) (ensure (k.length + 1 + extra) b)).buf.length
    rw [w1, w2, hcur]
    simp only [keyEmit, commaEmit, hf, if_neg]
    simp
    omega

theorem writeNull_spec (b : Builder) (h : Wf b) :
    str (writeNull b) = str b ++ nullBytes ∧
    (writeNull b).need_comma = b.need_comma ∧
    (writeNull b).cursor = b.cursor + nullBytes.length ∧
    b.buf.length ≤ (writeNull b).buf.length ∧ Wf (writeNull b) := by
  have hcap := ensure_cap 4 b
  have hcur := ensure_cursor 4 b
  have hflag := ensure_flag 4 b
  have hlen := ensure_len_ge 4 b
  have hstr := ensure_str 4 b h
  have h2 : writeNull b = writeRaw nullBytes (ensure 4 b) := rfl
  obtain ⟨w1, w2, w3, w4⟩ := writeRaw_spec nullBytes (ensure 4 b)
    (by simp [nullBytes]; omega)
  rw [h2]
  refine ⟨by rw [w4, hstr], by rw [w3, hflag], by rw [w2, hcur], by omega, ?_⟩
  show (writeRaw nullBytes (ensure 4 b)).cursor ≤
    (writeRaw nullBytes (ensure 4 b)).buf.length
  rw [w1, w2, hcur]
  simp [nullBytes]
  omega

/-! ### The digit loop computes the base-10 digits (most significant first) -/

theorem digitLoop_eq (n : Nat) : ∀ acc,
    digitLoop n acc = ((Nat.digits 10 n).map (fun d => 48 + d)).reverse ++ acc := by
  induction n using Nat.strong_induction_on with
  | _ n ih =>
    intro acc
    by_cases h0 : n = 0
    · subst h0
      rw [digitLoop]
      simp
    · rw [digitLoop]
      simp only [h0, dif_neg, if_neg]
      rw [ih (n / 10) (Nat.div_lt_self (Nat.pos_of_ne_zero h0) (by decide)),
        Nat.digits_def' (by norm_num : (1:Nat) < 10) (Nat.pos_of_ne_zero h0)]
      simp

theorem digits_len_le (n : Nat) (h : n < 2 ^ 64) : (Nat.digits 10 n).length ≤ 20 := by
  by_cases h0 : n = 0
  · subst h0; simp
  · rw [Nat.digits_len 10 n (by norm_num) h0]
    have : Nat.log 10 n < 20 :=
      Nat.log_lt_of_lt_pow h0 (calc n < 2 ^ 64 := h
        _ ≤ 10 ^ 20 := by norm_num)
    omega

theorem writeIntBytes_len (w : Nat) (v : Int) (hw : w ≤ 64) :
    (writeIntBytes w v).length ≤ 24 := by
  have hb : ∀ m : Nat, m < 2 ^ w → (digitLoop m []).length ≤ 20 := by
    intro m hm
    rw [digitLoop_eq m []]
    simp only [List.append_nil, List.length_reverse, List.length_map]
    exact digits_len_le m (lt_of_lt_of_le hm (Nat.pow_le_pow_right (by decide) hw))
  unfold writeIntBytes
  split
  · simp
  · split
    · simp only [List.length_cons]
      have := hb ((2 ^ w - ((v % ((2:Int) ^ w)).toNat)) % 2 ^ w)
        (Nat.mod_lt _ (Nat.pos_pow_of_pos w (by decide)))
      omega
    · have hvm : (v % ((2:Int) ^ w)).toNat < 2 ^ w := by
        have hpow : ((2 ^ w : Nat) : Int) = (2:Int) ^ w := by push_cast; ring
        have h1 : 0 ≤ v % ((2:Int) ^ w) :=
          Int.emod_nonneg v (by positivity)
        have h2 : v % ((2:Int) ^ w) < (2:Int) ^ w :=
          Int.emod_lt_of_pos v (by positivity)
        omega
      have := hb _ hvm
      omega

theorem writeInt_spec (w : Nat) (v : Int) (b : Builder) (hw : w ≤ 64) (h : Wf b) :
    str (writeInt w v b) = str b ++ writeIntBytes w v ∧
    (writeInt w v b).need_comma = b.need_comma ∧
    (writeInt w v b).cursor = b.cursor + (writeIntBytes w v).length ∧
    b.buf.length ≤ (writeInt w v b).buf.length ∧ Wf (writeInt w v b) := by
  have hcap := ensure_cap 24 b
  have hcur := ensure_cursor 24 b
  have hflag := ensure_flag 24 b
  have hlen := ensure_len_ge 24 b
  have hstr := ensure_str 24 b h
  have hwfe : Wf (ensure 24 b) := by unfold Wf at *; omega
  have hL := writeIntBytes_len w v hw
  have h2 : writeInt w v b = writeRaw (writeIntBytes w v) (ensure 24 b) := by
    show (if v = 0 then writeByte 48 (ensure 24 b)
      else if v < 0 then
        writeRaw (digitLoop ((2 ^ w - (v % (2 ^ w : Int)).toNat) % 2 ^ w) [])
          (writeByte 45 (ensure 24 b))
      else writeRaw (digitLoop ((v % (2 ^ w : Int)).toNat) []) (ensure 24 b)) = _
    by_cases h0 : v = 0
    · simp [writeIntBytes, h0, writeByte_eq]
    · by_cases hneg : v < 0
      · rw [if_neg h0, if_pos hneg, writeByte_eq, writeRaw_chain [45] _ _ hwfe]
        simp [writeIntBytes, h0, hneg]
      · rw [if_neg h0, if_neg hneg]
        simp [writeIntBytes, h0, hneg]
  obtain ⟨w1, w2, w3, w4⟩ := writeRaw_spec (writeIntBytes w v) (ensure 24 b)
    (by omega)
  rw [h2]
  refine ⟨by rw [w4, hstr], by rw [w3, hflag], by rw [w2, hcur], by omega, ?_⟩
  show (writeRaw (writeIntBytes w v) (ensure 24 b)).cursor ≤
    (writeRaw (writeIntBytes w v) (ensure 24 b)).buf.length
  rw [w1, w2, hcur]
  omega

/-! ### The escaping loop equals the per-byte specification `escSpec` -/

theorem repl_some_len (c : Nat) (r : List Nat) (h : repl c = some r) : r.length = 2 := by
  unfold repl at h
  repeat' split at h
  all_goals first
    | exact Option.noConfusion h
    | (cases h; rfl)

theorem escChar_of_some (c : Nat) (r : List Nat) (h : repl c = some r) :
    escChar c = r := by
  unfold escChar
  rw [h]

theorem escChar_of_drop (c : Nat) (h : repl c = none) (hc : c < 32) :
    escChar c = [] := by
  unfold escChar
  rw [h]
  simp [hc]

theorem escChar_of_plain (c : Nat) (h : repl c = none) (hc : ¬ c < 32) :
    escChar c = [c] := by
  unfold escChar
  rw [h]
  simp [hc]

theorem escChar_len_le (c : Nat) : (escChar c).length ≤ 2 := by
  rcases h : repl c with _ | r
  · simp only [escChar, h]
    split <;> simp
  · simp only [escChar, h]
    simp [repl_some_len c r h]

theorem escSpec_len_le (t : List Nat) : (escSpec t).length ≤ 2 * t.length := by
  induction t with
  | nil => simp [escSpec]
  | cons c t ih =>
    have := escChar_len_le c
    simp only [escSpec, List.length_append, List.length_cons]
    omega

theorem escSpec_append (t1 t2 : List Nat) :
    escSpec (t1 ++ t2) = escSpec t1 ++ escSpec t2 := by
  induction t1 with
  | nil => simp [escSpec]
  | cons c t ih => simp [escSpec, ih]

theorem escSpec_drop_cons (s : List Nat) (i : Nat) (h : i < s.length) :
    escSpec (s.drop i) = escChar (s.get ⟨i, h⟩) ++ escSpec (s.drop (i + 1)) := by
  have hd : s.drop i = s.get ⟨i, h⟩ :: s.drop (i + 1) := by
    rw [List.drop_eq_getElem_cons h]
    rfl
  rw [hd]
  rfl

theorem slice_nil (s : List Nat) (i : Nat) : slice s i i = [] := by
  simp [slice]

theorem slice_len (s : List Nat) (a bnd : Nat) (h1 : a ≤ bnd) (h2 : bnd ≤ s.length) :
    (slice s a bnd).length = bnd - a := by
  simp only [slice, List.length_take, List.length_drop]
  omega

theorem slice_extend (s : List Nat) (a i : Nat) (h1 : a ≤ i) (h2 : i < s.length) :
    slice s a (i + 1) = slice s a i ++ [s.get ⟨i, h2⟩] := by
  unfold slice
  have hstep : i + 1 - a = (i - a) + 1 := by omega
  rw [hstep, List.take_succ]
  congr 1
  have hget : (s.drop a)[i - a]? = some (s.get ⟨i, h2⟩) := by
    rw [List.getElem?_drop]
    have : a + (i - a) = i := by omega
    rw [this]
    exact List.getElem?_eq_getElem h2
  rw [hget]
  rfl

theorem escLoop_end (s : List Nat) (i start : Nat) (b : Builder)
    (h : ¬ i < s.length) : escLoop s i start b = (b, start) := by
  rw [escLoop]
  simp [h]

theorem escLoop_step_some (s : List Nat) (i start : Nat) (b : Builder)
    (h : i < s.length) (r : List Nat) (hr : repl (s.get ⟨i, h⟩) = some r) :
    escLoop s i start b =
      escLoop s (i + 1) (i + 1)
        (writeRaw r (if start < i then writeRaw (slice s start i) b else b)) := by
  rw [escLoop]
  simp only [dif_pos h, hr]

theorem escLoop_step_drop (s : List Nat) (i start : Nat) (b : Builder)
    (h : i < s.length) (hr : repl (s.get ⟨i, h⟩) = none)
    (hc : s.get ⟨i, h⟩ < 32) :
    escLoop s i start b =
      escLoop s (i + 1) (i + 1)
        (if start < i then writeRaw (slice s start i) b else b) := by
  rw [escLoop]
  simp only [dif_pos h, hr, if_pos hc]

theorem escLoop_step_plain (s : List Nat) (i start : Nat) (b : Builder)
    (h : i < s.length) (hr : repl (s.get ⟨i, h⟩) = none)
    (hc : ¬ s.get ⟨i, h⟩ < 32) :
    escLoop s i start b = escLoop s (i + 1) start b := by
  rw [escLoop]
  simp only [dif_pos h, hr, if_neg hc]

theorem flushRun_spec (s : List Nat) (start i : Nat) (b : Builder)
    (hsi : start ≤ i) (hil : i ≤ s.length)
    (hcap : b.cursor + (i - start) ≤ b.buf.length) :
    (if start < i then writeRaw (slice s start i) b else b).buf.length =
      b.buf.length ∧
    (if start < i then writeRaw (slice s start i) b else b).need_comma =
      b.need_comma ∧
    (if start < i then writeRaw (slice s start i) b else b).cursor =
      b.cursor + (i - start) ∧
    str (if start < i then writeRaw (slice s start i) b else b) =
      str b ++ slice s start i := by
  have hsl := slice_len s start i hsi hil
  by_cases hlt : start < i
  · obtain ⟨w1, w2, w3, w4⟩ := writeRaw_spec (slice s start i) b (by omega)
    simp only [hlt, if_pos]
    exact ⟨w1, w3, by rw [w2, hsl], w4⟩
  · have hei : start = i := by omega
    subst hei
    rw [if_neg hlt]
    refine ⟨rfl, rfl, by omega, by simp [slice_nil]⟩

theorem escLoop_flush (s : List Nat) (d : Nat) : ∀ (i start : Nat) (b : Builder),
    s.length - i ≤ d → start ≤ i → i ≤ s.length →
    b.cursor + ((i - start) + 2 * (s.length - i)) ≤ b.buf.length →
    (flushTail s (escLoop s i start b)).buf.length = b.buf.length ∧
    (flushTail s (escLoop s i start b)).need_comma = b.need_comma ∧
    (flushTail s (escLoop s i start b)).cursor =
      b.cursor + ((i - start) + (escSpec (s.drop i)).length) ∧
    str (flushTail s (escLoop s i start b)) =
      str b ++ (slice s start i ++ escSpec (s.drop i)) := by
  induction d with
  | zero =>
    intro i start b hd hsi hil hcap
    have hie : ¬ i < s.length := by omega
    have hi : i = s.length := by omega
    subst hi
    rw [escLoop_end s _ start b hie]
    unfold flushTail
    simp only [List.drop_length]
    by_cases hs : start < s.length
    · simp only [hs, if_pos]
      obtain ⟨w1, w2, w3, w4⟩ := writeRaw_spec (slice s start s.length) b
        (by rw [slice_len s start s.length hsi (le_refl _)]; omega)
      refine ⟨w1, w3, ?_, ?_⟩
      · rw [w2, slice_len s start s.length hsi (le_refl _)]
        simp [escSpec]
      · rw [w4]
        simp [escSpec]
    · rw [if_neg hs]
      have hes : start = s.length := by omega
      subst hes
      refine ⟨rfl, rfl, by simp [escSpec], by simp [escSpec, slice_nil]⟩
  | succ d ih =>
    intro i start b hd hsi hil hcap
    by_cases hlt : i < s.length
    · have hsl := slice_len s start i hsi (by omega)
      obtain ⟨f1, f2, f3, f4⟩ := flushRun_spec s start i b hsi (by omega) (by omega)
      have hesc := escSpec_drop_cons s i hlt
      rcases hr : repl (s.get ⟨i, hlt⟩) with _ | r
      · by_cases hc : s.get ⟨i, hlt⟩ < 32
        · -- dropped control byte
          rw [escLoop_step_drop s i start b hlt hr hc]
          obtain ⟨g1, g2, g3, g4⟩ := ih (i + 1) (i + 1)
            (if start < i then writeRaw (slice s start i) b else b)
            (by omega) (le_refl _) (by omega) (by rw [f3, f1]; omega)
          have hech : escChar (s.get ⟨i, hlt⟩) = [] :=
            escChar_of_drop _ hr hc
          refine ⟨by rw [g1, f1], by rw [g2, f2], ?_, ?_⟩
          · rw [g3, f3, hesc, hech]
            simp
            omega
          · rw [g4, f4, hesc, hech]
            simp [slice_nil]
        · -- plain byte
          rw [escLoop_step_plain s i start b hlt hr hc]
          obtain ⟨g1, g2, g3, g4⟩ := ih (i + 1) start b
            (by omega) (by omega) (by omega) (by omega)
          have hech : escChar (s.get ⟨i, hlt⟩) = [s.get ⟨i, hlt⟩] :=
            escChar_of_plain _ hr hc
          have hx := slice_extend s start i hsi hlt
          refine ⟨g1, g2, ?_, ?_⟩
          · rw [g3, hesc, hech]
            simp
            omega
          · rw [g4, hx, hesc, hech]
            simp
      · -- one of the seven named escapes
        have hr2 : r.length = 2 := repl_some_len _ r hr
        rw [escLoop_step_some s i start b hlt r hr]
        obtain ⟨e1, e2, e3, e4⟩ := writeRaw_spec r
          (if start < i then writeRaw (slice s start i) b else b)
          (by rw [f3, f1]; omega)
        obtain ⟨g1, g2, g3, g4⟩ := ih (i + 1) (i + 1)
          (writeRaw r (if start < i then writeRaw (slice s start i) b else b))
          (by omega) (le_refl _) (by omega)
          (by rw [e2, e1, f3, f1]; omega)
        have hech : escChar (s.get ⟨i, hlt⟩) = r := escChar_of_some _ r hr
        refine ⟨by rw [g1, e1, f1], by rw [g2, e3, f2], ?_, ?_⟩
        · rw [g3, e2, f3, hesc, hech]
          simp
          omega
        · rw [g4, e4, f4, hesc, hech]
          simp [slice_nil]
    · have hi : i = s.length := by omega
      subst hi
      rw [escLoop_end s _ start b hlt]
      unfold flushTail
      simp only [List.drop_length]
      by_cases hs : start < s.length
      · simp only [hs, if_pos]
        obtain ⟨w1, w2, w3, w4⟩ := writeRaw_spec (slice s start s.length) b
          (by rw [slice_len s start s.length hsi (le_refl _)]; omega)
        refine ⟨w1, w3, ?_, ?_⟩
        · rw [w2, slice_len s start s.length hsi (le_refl _)]
          simp [escSpec]
        · rw [w4]
          simp [escSpec]
      · rw [if_neg hs]
        have hes : start = s.length := by omega
        subst hes
        refine ⟨rfl, rfl, by simp [escSpec], by simp [escSpec, slice_nil]⟩

theorem escapeString_spec (s : List Nat) (b : Builder) (h : Wf b) :
    str (escapeString s b) = str b ++ strEmit s ∧
    (escapeString s b).need_comma = b.need_comma ∧
    (escapeString s b).cursor = b.cursor + (strEmit s).length ∧
    b.buf.length ≤ (escapeString s b).buf.length ∧ Wf (escapeString s b) := by
  have hcap := ensure_cap (s.length * 2 + 2) b
  have hcur := ensure_cursor (s.length * 2 + 2) b
  have hflag := ensure_flag (s.length * 2 + 2) b
  have hlen := ensure_len_ge (s.length * 2 + 2) b
  have hstr := ensure_str (s.length * 2 + 2) b h
  have hel := escSpec_len_le s
  obtain ⟨q1, q2, q3, q4⟩ := writeRaw_spec [34] (ensure (s.length * 2 + 2) b)
    (by simp; omega)
  obtain ⟨p1, p2, p3, p4⟩ := escLoop_flush s s.length 0 0
    (writeRaw [34] (ensure (s.length * 2 + 2) b)) (by omega) (by omega) (by omega)
    (by rw [q2, q1, hcur]; simp; omega)
  obtain ⟨r1, r2, r3, r4⟩ := writeRaw_spec [34]
    (flushTail s (escLoop s 0 0 (writeRaw [34] (ensure (s.length * 2 + 2) b))))
    (by rw [p3, p1, q2, q1, hcur]; simp; omega)
  have heq : escapeString s b = writeRaw [34]
      (flushTail s (escLoop s 0 0 (writeRaw [34] (ensure (s.length * 2 + 2) b)))) :=
    rfl
  rw [heq]
  refine ⟨?_, ?_, ?_, ?_, ?_⟩
  · rw [r4, p4, q4, hstr]
    simp [strEmit, slice_nil]
  · rw [r3, p2, q3, hflag]
  · rw [r2, p3, q2, hcur]
    simp [strEmit]
    omega
  · rw [r1, p1, q1]
    exact hlen
  · show (writeRaw [34] _).cursor ≤ (writeRaw [34] _).buf.length
    rw [r2, r1, p3, p1, q2, q1, hcur]
    simp
    omega

/-! ### One emission call, as syntax: the public operations the claims use -/

/-- A single public emission call with its arguments. -/
inductive Op where
  | opStart
  | opEnd
  | opStartArray
  | opEndArray
  | opKey (k : List Nat)
  | opAddInt (k : List Nat) (w : Nat) (v : Int)
  | opAddString (k v : List Nat)
  | opAddNull (k : List Nat)
  | opAddOrNull (k : List Nat) (w : Nat) (v u : Int)
  | opAddStringOrNull (k s : List Nat)
  | opAddIntLit (k : List Nat) (w : Nat) (v : Int)
  | opAddStringLit (k v : List Nat)
  | opAddStringOrNullLit (k s : List Nat)
  | opAddStringOrNullLitC (k : List Nat) (s : Option (List Nat))
  | opAddIf (c : Bool) (k : List Nat) (w : Nat) (v : Int)
  | opAddStringIf (c : Bool) (k s : List Nat)
  | opValueInt (w : Nat) (v : Int)
  | opValueString (s : List Nat)
  | opValueNull
  | opValueOrNull (w : Nat) (v u : Int)
  | opValueStringOrNull (s : List Nat)
  | opValueStringOrNullC (s : Option (List Nat))

/-- Run one call on the builder. -/
def apply : Op → Builder → Builder
  | .opStart, b => start b
  | .opEnd, b => end_ b
  | .opStartArray, b => startArray b
  | .opEndArray, b => endArray b
  | .opKey k, b => key k b
  | .opAddInt k w v, b => addInt k w v b
  | .opAddString k v, b => addString k v b
  | .opAddNull k, b => addNull k b
  | .opAddOrNull k w v u, b => addOrNull k w v u b
  | .opAddStringOrNull k s, b => addStringOrNull k s b
  | .opAddIntLit k w v, b => addIntLit k w v b
  | .opAddStringLit k v, b => addStringLit k v b
  | .opAddStringOrNullLit k s, b => addStringOrNullLit k s b
  | .opAddStringOrNullLitC k s, b => addStringOrNullLitC k s b
  | .opAddIf c k w v, b => addIf c k w v b
  | .opAddStringIf c k s, b => addStringIf c k s b
  | .opValueInt w v, b => valueInt w v b
  | .opValueString s, b => valueString s b
  | .opValueNull, b => valueNull b
  | .opValueOrNull w v u, b => valueOrNull w v u b
  | .opValueStringOrNull s, b => valueStringOrNull s b
  | .opValueStringOrNullC s, b => valueStringOrNullC s b

/-- Run a whole call sequence. -/
def applyAll : List Op → Builder → Builder
  | [], b => b
  | op :: t, b => applyAll t (apply op b)

/-- The bytes one call appends, as a function of the call and the incoming
pending-separator flag only. -/
def emitOp : Op → Bool → List Nat
  | .opStart, f => commaEmit f ++ [123]
  | .opEnd, _ => [125]
  | .opStartArray, f => commaEmit f ++ [91]
  | .opEndArray, _ => [93]
  | .opKey k, f => keyEmit f k
  | .opAddInt k w v, f => keyEmit f k ++ writeIntBytes w v
  | .opAddString k s, f => keyEmit f k ++ strEmit s
  | .opAddNull k, f => keyEmit f k ++ nullBytes
  | .opAddOrNull k w v u, f =>
      keyEmit f k ++ (if v = u then nullBytes else writeIntBytes w v)
  | .opAddStringOrNull k s, f =>
      keyEmit f k ++ (if s = [] then nullBytes else strEmit s)
  | .opAddIntLit k w v, f => keyEmit f k ++ writeIntBytes w v
  | .opAddStringLit k s, f => keyEmit f k ++ strEmit s
  | .opAddStringOrNullLit k s, f =>
      keyEmit f k ++ (if s = [] then nullBytes else strEmit s)
  | .opAddStringOrNullLitC k s, f =>
      keyEmit f k ++ (match s with
        | none => nullBytes
        | some t => if t = [] then nullBytes else strEmit t)
  | .opAddIf c k w v, f => if c then keyEmit f k ++ writeIntBytes w v else []
  | .opAddStringIf c k s, f => if c then keyEmit f k ++ strEmit s else []
  | .opValueInt w v, f => commaEmit f ++ writeIntBytes w v
  | .opValueString s, f => commaEmit f ++ strEmit s
  | .opValueNull, f => commaEmit f ++ nullBytes
  | .opValueOrNull w v u, f =>
      commaEmit f ++ (if v = u then nullBytes else writeIntBytes w v)
  | .opValueStringOrNull s, f =>
      commaEmit f ++ (if s = [] then nullBytes else strEmit s)
  | .opValueStringOrNullC s, f =>
      commaEmit f ++ (match s with
        | none => nullBytes
        | some t => if t = [] then nullBytes else strEmit t)

/-- The pending-separator flag after one call, as a function of the call and
the incoming flag only. -/
def flagOp : Op → Bool → Bool
  | .opStart, _ => false
  | .opStartArray, _ => false
  | .opKey _, _ => false
  | .opAddIf c _ _ _, f => if c then true else f
  | .opAddStringIf c _ _, f => if c then true else f
  | _, _ => true

/-- The supported integer widths: every integral type of the source has at
most 64 bits. -/
def Op.wfOp : Op → Prop
  | .opAddInt _ w _ => w ≤ 64
  | .opAddOrNull _ w _ _ => w ≤ 64
  | .opAddIntLit _ w _ => w ≤ 64
  | .opAddIf _ _ w _ => w ≤ 64
  | .opValueInt w _ => w ≤ 64
  | .opValueOrNull w _ _ => w ≤ 64
  | _ => True

/-- The bytes a call sequence appends from a given starting flag. -/
def outOps : List Op → Bool → List Nat
  | [], _ => []
  | op :: t, f => emitOp op f ++ outOps t (flagOp op f)

/-- The flag after a call sequence from a given starting flag. -/
def flagOps : List Op → Bool → Bool
  | [], f => f
  | op :: t, f => flagOps t (flagOp op f)

/-! ### Compositional writer specifications -/

/-- A value writer that appends `out` and touches nothing else. -/
def WriterSpec (f : Builder → Builder) (out : List Nat) : Prop :=
  ∀ b, Wf b → str (f b) = str b ++ out ∧ (f b).need_comma = b.need_comma ∧
    (f b).cursor = b.cursor + out.length ∧
    b.buf.length ≤ (f b).buf.length ∧ Wf (f b)

theorem writerSpec_writeInt (w : Nat) (v : Int) (hw : w ≤ 64) :
    WriterSpec (writeInt w v) (writeIntBytes w v) :=
  fun b h => writeInt_spec w v b hw h

theorem writerSpec_writeNull : WriterSpec writeNull nullBytes :=
  fun b h => writeNull_spec b h

theorem writerSpec_escape (s : List Nat) : WriterSpec (escapeString s) (strEmit s) :=
  fun b h => escapeString_spec s b h

theorem value_spec (f : Builder → Builder) (out : List Nat)
    (hf : WriterSpec f out) (b : Builder) (h : Wf b) :
    str (f (comma b)) = str b ++ (commaEmit b.need_comma ++ out) ∧
    (f (comma b)).need_comma = true ∧
    b.buf.length ≤ (f (comma b)).buf.length ∧ Wf (f (comma b)) := by
  obtain ⟨c1, c2, c3, c4, c5⟩ := comma_spec b h
  obtain ⟨w1, w2, w3, w4, w5⟩ := hf (comma b) c5
  exact ⟨by rw [w1, c1]; simp, by rw [w2, c2], by omega, w5⟩

theorem addR_spec (k : List Nat) (f : Builder → Builder) (out : List Nat)
    (hf : WriterSpec f out) (b : Builder) (h : Wf b) :
    str { f (appendKeyImpl k b) with need_comma := true } =
      str b ++ (keyEmit b.need_comma k ++ out) ∧
    b.buf.length ≤ ({ f (appendKeyImpl k b) with need_comma := true }).buf.length ∧
    Wf { f (appendKeyImpl k b) with need_comma := true } := by
  obtain ⟨a1, a2, a3, a4, a5⟩ := appendKeyImpl_spec k b h
  obtain ⟨w1, w2, w3, w4, w5⟩ := hf (appendKeyImpl k b) a5
  refine ⟨?_, ?_, w5⟩
  · show str (f (appendKeyImpl k b)) = _
    rw [w1, a1]
    simp
  · show b.buf.length ≤ (f (appendKeyImpl k b)).buf.length
    omega

theorem addL_spec (k : List Nat) (extra : Nat) (f : Builder → Builder)
    (out : List Nat) (hf : WriterSpec f out) (hx : 3 ≤ extra)
    (b : Builder) (h : Wf b) :
    str { f (keyLit k extra b) with need_comma := true } =
      str b ++ (keyEmit b.need_comma k ++ out) ∧
    b.buf.length ≤ ({ f (keyLit k extra b) with need_comma := true }).buf.length ∧
    Wf { f (keyLit k extra b) with need_comma := true } := by
  obtain ⟨a1, a2, a3, a4, a5⟩ := keyLit_spec k extra b h hx
  obtain ⟨w1, w2, w3, w4, w5⟩ := hf (keyLit k extra b) a5
  refine ⟨?_, ?_, w5⟩
  · show str (f (keyLit k extra b)) = _
    rw [w1, a1]
    simp
  · show b.buf.length ≤ (f (keyLit k extra b)).buf.length
    omega

theorem brace_spec (c : Nat) (b : Builder) (h : Wf b) :
    str (writeByte c (ensure 1 b)) = str b ++ [c] ∧
    (writeByte c (ensure 1 b)).need_comma = b.need_comma ∧
    (writeByte c (ensure 1 b)).cursor = b.cursor + 1 ∧
    b.buf.length ≤ (writeByte c (ensure 1 b)).buf.length ∧
    Wf (writeByte c (ensure 1 b)) := by
  have hcap := ensure_cap 1 b
  have hcur := ensure_cursor 1 b
  have hflag := ensure_flag 1 b
  have hlen := ensure_len_ge 1 b
  have hstr := ensure_str 1 b h
  obtain ⟨w1, w2, w3, w4⟩ := writeRaw_spec [c] (ensure 1 b) (by simp; omega)
  rw [writeByte_eq]
  exact ⟨by rw [w4, hstr], by rw [w3, hflag], by rw [w2, hcur]; simp, by omega,
    by unfold Wf; rw [w2, w1, hcur]; simp; omega⟩

theorem start_spec (b : Builder) (h : Wf b) :
    str (start b) = str b ++ (commaEmit b.need_comma ++ [123]) ∧
    (start b).need_comma = false ∧
    b.buf.length ≤ (start b).buf.length ∧ Wf (start b) := by
  obtain ⟨c1, c2, c3, c4, c5⟩ := comma_spec b h
  obtain ⟨s1, s2, s3, s4, s5⟩ := brace_spec 123 (comma b) c5
  have heq : start b =
      { writeByte 123 (ensure 1 (comma b)) with need_comma := false } := rfl
  rw [heq]
  refine ⟨?_, rfl, ?_, s5⟩
  · show str (writeByte 123 (ensure 1 (comma b))) = _
    rw [s1, c1]
    simp
  · show b.buf.length ≤ (writeByte 123 (ensure 1 (comma b))).buf.length
    omega

theorem endObj_spec (b : Builder) (h : Wf b) :
    str (end_ b) = str b ++ [125] ∧ (end_ b).need_comma = true ∧
    b.buf.length ≤ (end_ b).buf.length ∧ Wf (end_ b) := by
  obtain ⟨s1, s2, s3, s4, s5⟩ := brace_spec 125 b h
  have heq : end_ b =
      { writeByte 125 (ensure 1 b) with need_comma := true } := rfl
  rw [heq]
  refine ⟨s1, rfl, s4, s5⟩

theorem startArray_spec (b : Builder) (h : Wf b) :
    str (startArray b) = str b ++ (commaEmit b.need_comma ++ [91]) ∧
    (startArray b).need_comma = false ∧
    b.buf.length ≤ (startArray b).buf.length ∧ Wf (startArray b) := by
  obtain ⟨c1, c2, c3, c4, c5⟩ := comma_spec b h
  obtain ⟨s1, s2, s3, s4, s5⟩ := brace_spec 91 (comma b) c5
  have heq : startArray b =
      { writeByte 91 (ensure 1 (comma b)) with need_comma := false } := rfl
  rw [heq]
  refine ⟨?_, rfl, ?_, s5⟩
  · show str (writeByte 91 (ensure 1 (comma b))) = _
    rw [s1, c1]
    simp
  · show b.buf.length ≤ (writeByte 91 (ensure 1 (comma b))).buf.length
    omega

theorem endArray_spec (b : Builder) (h : Wf b) :
    str (endArray b) = str b ++ [93] ∧ (endArray b).need_comma = true ∧
    b.buf.length ≤ (endArray b).buf.length ∧ Wf (endArray b) := by
  obtain ⟨s1, s2, s3, s4, s5⟩ := brace_spec 93 b h
  have heq : endArray b =
      { writeByte 93 (ensure 1 b) with need_comma := true } := rfl
  rw [heq]
  refine ⟨s1, rfl, s4, s5⟩

theorem key_spec (k : List Nat) (b : Builder) (h : Wf b) :
    str (key k b) = str b ++ keyEmit b.need_comma k ∧
    (key k b).need_comma = false ∧
    b.buf.length ≤ (key k b).buf.length ∧ Wf (key k b) := by
  obtain ⟨a1, a2, a3, a4, a5⟩ := appendKeyImpl_spec k b h
  exact ⟨a1, a2, a4, a5⟩

theorem valueInt_spec (w : Nat) (v : Int) (b : Builder) (hw : w ≤ 64) (h : Wf b) :
    str (valueInt w v b) = str b ++ (commaEmit b.need_comma ++ writeIntBytes w v) ∧
    (valueInt w v b).need_comma = true ∧
    b.buf.length ≤ (valueInt w v b).buf.length ∧ Wf (valueInt w v b) :=
  value_spec (writeInt w v) (writeIntBytes w v) (writerSpec_writeInt w v hw) b h

theorem valueString_spec (s : List Nat) (b : Builder) (h : Wf b) :
    str (valueString s b) = str b ++ (commaEmit b.need_comma ++ strEmit s) ∧
    (valueString s b).need_comma = true ∧
    b.buf.length ≤ (valueString s b).buf.length ∧ Wf (valueString s b) :=
  value_spec (escapeString s) (strEmit s) (writerSpec_escape s) b h

theorem valueNull_spec (b : Builder) (h : Wf b) :
    str (valueNull b) = str b ++ (commaEmit b.need_comma ++ nullBytes) ∧
    (valueNull b).need_comma = true ∧
    b.buf.length ≤ (valueNull b).buf.length ∧ Wf (valueNull b) :=
  value_spec writeNull nullBytes writerSpec_writeNull b h

theorem valueOrNull_spec (w : Nat) (v u : Int) (b : Builder) (hw : w ≤ 64)
    (h : Wf b) :
    str (valueOrNull w v u b) =
      str b ++ (commaEmit b.need_comma ++
        (if v = u then nullBytes else writeIntBytes w v)) ∧
    (valueOrNull w v u b).need_comma = true ∧
    b.buf.length ≤ (valueOrNull w v u b).buf.length ∧ Wf (valueOrNull w v u b) := by
  by_cases hvu : v = u
  · have heq : valueOrNull w v u b = writeNull (comma b) := by
      simp [valueOrNull, hvu]
    rw [heq, if_pos hvu]
    exact value_spec writeNull nullBytes writerSpec_writeNull b h
  · have heq : valueOrNull w v u b = writeInt w v (comma b) := by
      simp [valueOrNull, hvu]
    rw [heq, if_neg hvu]
    exact value_spec (writeInt w v) (writeIntBytes w v)
      (writerSpec_writeInt w v hw) b h

theorem valueStringOrNull_spec (s : List Nat) (b : Builder) (h : Wf b) :
    str (valueStringOrNull s b) =
      str b ++ (commaEmit b.need_comma ++
        (if s = [] then nullBytes else strEmit s)) ∧
    (valueStringOrNull s b).need_comma = true ∧
    b.buf.length ≤ (valueStringOrNull s b).buf.length ∧
    Wf (valueStringOrNull s b) := by
  by_cases hs : s = []
  · have heq : valueStringOrNull s b = writeNull (comma b) := by
      simp [valueStringOrNull, hs]
    rw [heq, if_pos hs]
    exact value_spec writeNull nullBytes writerSpec_writeNull b h
  · have heq : valueStringOrNull s b = escapeString s (comma b) := by
      simp [valueStringOrNull, hs]
    rw [heq, if_neg hs]
    exact value_spec (escapeString s) (strEmit s) (writerSpec_escape s) b h

theorem valueStringOrNullC_spec (s : Option (List Nat)) (b : Builder) (h : Wf b) :
    str (valueStringOrNullC s b) =
      str b ++ (commaEmit b.need_comma ++
        (match s with
          | none => nullBytes
          | some t => if t = [] then nullBytes else strEmit t)) ∧
    (valueStringOrNullC s b).need_comma = true ∧
    b.buf.length ≤ (valueStringOrNullC s b).buf.length ∧
    Wf (valueStringOrNullC s b) := by
  cases s with
  | none =>
    exact value_spec writeNull nullBytes writerSpec_writeNull b h
  | some t =>
    have hred : (match some t with
        | none => nullBytes
        | some t2 => if t2 = [] then nullBytes else strEmit t2) =
        (if t = [] then nullBytes else strEmit t) := rfl
    rw [hred]
    by_cases ht : t = []
    · have heq : valueStringOrNullC (some t) b = writeNull (comma b) := by
        simp [valueStringOrNullC, ht]
      rw [heq, if_pos ht]
      exact value_spec writeNull nullBytes writerSpec_writeNull b h
    · have heq : valueStringOrNullC (some t) b = escapeString t (comma b) := by
        simp [valueStringOrNullC, ht]
      rw [heq, if_neg ht]
      exact value_spec (escapeString t) (strEmit t) (writerSpec_escape t) b h

theorem addInt_spec (k : List Nat) (w : Nat) (v : Int) (b : Builder)
    (hw : w ≤ 64) (h : Wf b) :
    str (addInt k w v b) = str b ++ (keyEmit b.need_comma k ++ writeIntBytes w v) ∧
    (addInt k w v b).need_comma = true ∧
    b.buf.length ≤ (addInt k w v b).buf.length ∧ Wf (addInt k w v b) := by
  obtain ⟨a, c, d⟩ := addR_spec k (writeInt w v) (writeIntBytes w v)
    (writerSpec_writeInt w v hw) b h
  exact ⟨a, rfl, c, d⟩

theorem addString_spec (k s : List Nat) (b : Builder) (h : Wf b) :
    str (addString k s b) = str b ++ (keyEmit b.need_comma k ++ strEmit s) ∧
    (addString k s b).need_comma = true ∧
    b.buf.length ≤ (addString k s b).buf.length ∧ Wf (addString k s b) := by
  obtain ⟨a, c, d⟩ := addR_spec k (escapeString s) (strEmit s)
    (writerSpec_escape s) b h
  exact ⟨a, rfl, c, d⟩

theorem addNull_spec (k : List Nat) (b : Builder) (h : Wf b) :
    str (addNull k b) = str b ++ (keyEmit b.need_comma k ++ nullBytes) ∧
    (addNull k b).need_comma = true ∧
    b.buf.length ≤ (addNull k b).buf.length ∧ Wf (addNull k b) := by
  obtain ⟨a, c, d⟩ := addR_spec k writeNull nullBytes writerSpec_writeNull b h
  exact ⟨a, rfl, c, d⟩

theorem addOrNull_spec (k : List Nat) (w : Nat) (v u : Int) (b : Builder)
    (hw : w ≤ 64) (h : Wf b) :
    str (addOrNull k w v u b) =
      str b ++ (keyEmit b.need_comma k ++
        (if v = u then nullBytes else writeIntBytes w v)) ∧
    (addOrNull k w v u b).need_comma = true ∧
    b.buf.length ≤ (addOrNull k w v u b).buf.length ∧ Wf (addOrNull k w v u b) := by
  by_cases hvu : v = u
  · have heq : addOrNull k w v u b =
        { writeNull (appendKeyImpl k b) with need_comma := true } := by
      simp [addOrNull, hvu]
    obtain ⟨a, c, d⟩ := addR_spec k writeNull nullBytes writerSpec_writeNull b h
    rw [heq, if_pos hvu]
    exact ⟨a, rfl, c, d⟩
  · have heq : addOrNull k w v u b =
        { writeInt w v (appendKeyImpl k b) with need_comma := true } := by
      simp [addOrNull, hvu]
    obtain ⟨a, c, d⟩ := addR_spec k (writeInt w v) (writeIntBytes w v)
      (writerSpec_writeInt w v hw) b h
    rw [heq, if_neg hvu]
    exact ⟨a, rfl, c, d⟩

theorem addStringOrNull_spec (k s : List Nat) (b : Builder) (h : Wf b) :
    str (addStringOrNull k s b) =
      str b ++ (keyEmit b.need_comma k ++
        (if s = [] then nullBytes else strEmit s)) ∧
    (addStringOrNull k s b).need_comma = true ∧
    b.buf.length ≤ (addStringOrNull k s b).buf.length ∧
    Wf (addStringOrNull k s b) := by
  by_cases hs : s = []
  · have heq : addStringOrNull k s b =
        { writeNull (appendKeyImpl k b) with need_comma := true } := by
      simp [addStringOrNull, hs]
    obtain ⟨a, c, d⟩ := addR_spec k writeNull nullBytes writerSpec_writeNull b h
    rw [heq, if_pos hs]
    exact ⟨a, rfl, c, d⟩
  · have heq : addStringOrNull k s b =
        { escapeString s (appendKeyImpl k b) with need_comma := true } := by
      simp [addStringOrNull, hs]
    obtain ⟨a, c, d⟩ := addR_spec k (escapeString s) (strEmit s)
      (writerSpec_escape s) b h
    rw [heq, if_neg hs]
    exact ⟨a, rfl, c, d⟩

theorem addIntLit_spec (k : List Nat) (w : Nat) (v : Int) (b : Builder)
    (hw : w ≤ 64) (h : Wf b) :
    str (addIntLit k w v b) =
      str b ++ (keyEmit b.need_comma k ++ writeIntBytes w v) ∧
    (addIntLit k w v b).need_comma = true ∧
    b.buf.length ≤ (addIntLit k w v b).buf.length ∧ Wf (addIntLit k w v b) := by
  obtain ⟨a, c, d⟩ := addL_spec k 27 (writeInt w v) (writeIntBytes w v)
    (writerSpec_writeInt w v hw) (by norm_num) b h
  exact ⟨a, rfl, c, d⟩

theorem addStringLit_spec (k s : List Nat) (b : Builder) (h : Wf b) :
    str (addStringLit k s b) = str b ++ (keyEmit b.need_comma k ++ strEmit s) ∧
    (addStringLit k s b).need_comma = true ∧
    b.buf.length ≤ (addStringLit k s b).buf.length ∧ Wf (addStringLit k s b) := by
  obtain ⟨a, c, d⟩ := addL_spec k 3 (escapeString s) (strEmit s)
    (writerSpec_escape s) (by norm_num) b h
  exact ⟨a, rfl, c, d⟩

theorem addStringOrNullLit_spec (k s : List Nat) (b : Builder) (h : Wf b) :
    str (addStringOrNullLit k s b) =
      str b ++ (keyEmit b.need_comma k ++
        (if s = [] then nullBytes else strEmit s)) ∧
    (addStringOrNullLit k s b).need_comma = true ∧
    b.buf.length ≤ (addStringOrNullLit k s b).buf.length ∧
    Wf (addStringOrNullLit k s b) := by
  by_cases hs : s = []
  · have heq : addStringOrNullLit k s b =
        { writeNull (keyLit k 3 b) with need_comma := true } := by
      simp [addStringOrNullLit, hs]
    obtain ⟨a, c, d⟩ := addL_spec k 3 writeNull nullBytes writerSpec_writeNull
      (by norm_num) b h
    rw [heq, if_pos hs]
    exact ⟨a, rfl, c, d⟩
  · have heq : addStringOrNullLit k s b =
        { escapeString s (keyLit k 3 b) with need_comma := true } := by
      simp [addStringOrNullLit, hs]
    obtain ⟨a, c, d⟩ := addL_spec k 3 (escapeString s) (strEmit s)
      (writerSpec_escape s) (by norm_num) b h
    rw [heq, if_neg hs]
    exact ⟨a, rfl, c, d⟩

theorem addStringOrNullLitC_spec (k : List Nat) (s : Option (List Nat))
    (b : Builder) (h : Wf b) :
    str (addStringOrNullLitC k s b) =
      str b ++ (keyEmit b.need_comma k ++
        (match s with
          | none => nullBytes
          | some t => if t = [] then nullBytes else strEmit t)) ∧
    (addStringOrNullLitC k s b).need_comma = true ∧
    b.buf.length ≤ (addStringOrNullLitC k s b).buf.length ∧
    Wf (addStringOrNullLitC k s b) := by
  cases s with
  | none =>
    obtain ⟨a, c, d⟩ := addL_spec k 3 writeNull nullBytes writerSpec_writeNull
      (by norm_num) b h
    exact ⟨a, rfl, c, d⟩
  | some t =>
    have hred : (match some t with
        | none => nullBytes
        | some t2 => if t2 = [] then nullBytes else strEmit t2) =
        (if t = [] then nullBytes else strEmit t) := rfl
    rw [hred]
    by_cases ht : t = []
    · have heq : addStringOrNullLitC k (some t) b =
          { writeNull (keyLit k 3 b) with need_comma := true } := by
        simp [addStringOrNullLitC, ht]
      obtain ⟨a, c, d⟩ := addL_spec k 3 writeNull nullBytes writerSpec_writeNull
        (by norm_num) b h
      rw [heq, if_pos ht]
      exact ⟨a, rfl, c, d⟩
    · have heq : addStringOrNullLitC k (some t) b =
          { escapeString t (keyLit k 3 b) with need_comma := true } := by
        simp [addStringOrNullLitC, ht]
      obtain ⟨a, c, d⟩ := addL_spec k 3 (escapeString t) (strEmit t)
        (writerSpec_escape t) (by norm_num) b h
      rw [heq, if_neg ht]
      exact ⟨a, rfl, c, d⟩

theorem addIf_spec (c : Bool) (k : List Nat) (w : Nat) (v : Int) (b : Builder)
    (hw : w ≤ 64) (h : Wf b) :
    str (addIf c k w v b) =
      str b ++ (if c then keyEmit b.need_comma k ++ writeIntBytes w v else []) ∧
    (addIf c k w v b).need_comma = (if c then true else b.need_comma) ∧
    b.buf.length ≤ (addIf c k w v b).buf.length ∧ Wf (addIf c k w v b) := by
  cases c
  · refine ⟨by simp [addIf], by simp [addIf], le_refl _, h⟩
  · simp only [addIf, if_true]
    exact addIntLit_spec k w v b hw h

theorem addStringIf_spec (c : Bool) (k s : List Nat) (b : Builder) (h : Wf b) :
    str (addStringIf c k s b) =
      str b ++ (if c then keyEmit b.need_comma k ++ strEmit s else []) ∧
    (addStringIf c k s b).need_comma = (if c then true else b.need_comma) ∧
    b.buf.length ≤ (addStringIf c k s b).buf.length ∧ Wf (addStringIf c k s b) := by
  cases c
  · refine ⟨by simp [addStringIf], by simp [addStringIf], le_refl _, h⟩
  · simp only [addStringIf, if_true]
    exact addStringLit_spec k s b h

/-- Master lemma, one call: from a well-formed state, every public call
appends exactly `emitOp` (a function of the call and the flag alone), sets
the flag to `flagOp`, never shrinks the buffer and preserves the capacity
invariant. -/
theorem apply_spec (op : Op) (b : Builder) (hop : op.wfOp) (h : Wf b) :
    str (apply op b) = str b ++ emitOp op b.need_comma ∧
    (apply op b).need_comma = flagOp op b.need_comma ∧
    b.buf.length ≤ (apply op b).buf.length ∧ Wf (apply op b) := by
  cases op with
  | opStart => exact start_spec b h
  | opEnd => exact endObj_spec b h
  | opStartArray => exact startArray_spec b h
  | opEndArray => exact endArray_spec b h
  | opKey k => exact key_spec k b h
  | opAddInt k w v => exact addInt_spec k w v b hop h
  | opAddString k v => exact addString_spec k v b h
  | opAddNull k => exact addNull_spec k b h
  | opAddOrNull k w v u => exact addOrNull_spec k w v u b hop h
  | opAddStringOrNull k s => exact addStringOrNull_spec k s b h
  | opAddIntLit k w v => exact addIntLit_spec k w v b hop h
  | opAddStringLit k v => exact addStringLit_spec k v b h
  | opAddStringOrNullLit k s => exact addStringOrNullLit_spec k s b h
  | opAddStringOrNullLitC k s => exact addStringOrNullLitC_spec k s b h
  | opAddIf c k w v => exact addIf_spec c k w v b hop h
  | opAddStringIf c k s => exact addStringIf_spec c k s b h
  | opValueInt w v => exact valueInt_spec w v b hop h
  | opValueString s => exact valueString_spec s b h
  | opValueNull => exact valueNull_spec b h
  | opValueOrNull w v u => exact valueOrNull_spec w v u b hop h
  | opValueStringOrNull s => exact valueStringOrNull_spec s b h
  | opValueStringOrNullC s => exact valueStringOrNullC_spec s b h

/-- Master lemma, a whole call sequence. -/
theorem applyAll_spec (ops : List Op) : ∀ b : Builder, (∀ op ∈ ops, op.wfOp) →
    Wf b →
    str (applyAll ops b) = str b ++ outOps ops b.need_comma ∧
    (applyAll ops b).need_comma = flagOps ops b.need_comma ∧
    b.buf.length ≤ (applyAll ops b).buf.length ∧ Wf (applyAll ops b) := by
  induction ops with
  | nil =>
    intro b _ h
    exact ⟨by simp [applyAll, outOps], rfl, le_refl _, h⟩
  | cons op t ih =>
    intro b hops h
    obtain ⟨a1, a2, a3, a4⟩ := apply_spec op b (hops op (by simp)) h
    obtain ⟨g1, g2, g3, g4⟩ := ih (apply op b) (fun o ho => hops o (by simp [ho])) a4
    refine ⟨?_, ?_, ?_, g4⟩
    · show str (applyAll t (apply op b)) = _
      rw [g1, a1, a2]
      simp [outOps]
    · show (applyAll t (apply op b)).need_comma = _
      rw [g2, a2]
      rfl
    · show b.buf.length ≤ (applyAll t (apply op b)).buf.length
      omega

/-! ### A bounds-checked interpreter of the same operations

`writeRaw` models `memcpy(&buf[cursor], data, len)` on a `List`, where a
write past the end of the writable region cannot be represented as the
C++ undefined behaviour it is.  To state the safety claim honestly, the
`…O` variants below re-run every operation with the exact same structure
but through `writeRawO`, which checks the memcpy precondition
`cursor + len ≤ buf.size()` at every single write and fails (`none`)
the moment any write would go out of bounds.  An operation that called
`ensure` with too small a bound would make its `…O` variant return
`none`; the safety theorem asserts each one succeeds and returns exactly
the unchecked result. -/

/-- `memcpy` with its in-bounds precondition checked: `none` iff the
write would touch bytes at or beyond `buf.size()`. -/
def writeRawO (data : List Nat) (b : Builder) : Option Builder :=
  if b.cursor + data.length ≤ b.buf.length then some (writeRaw data b) else none

/-- Checked `comma()`. -/
def commaO (b : Builder) : Option Builder :=
  (if b.need_comma then writeRawO [44] (ensure 1 b) else some b).bind fun b1 =>
    some { b1 with need_comma := true }

/-- The four checked writes `\"` k `\"` `:` shared by the key emitters. -/
def keyWritesOImpl (k : List Nat) (b2 : Builder) : Option Builder :=
  (writeRawO [34] b2).bind fun b3 =>
    (writeRawO k b3).bind fun b4 =>
      (writeRawO [34] b4).bind fun b5 =>
        writeRawO [58] b5

/-- Checked `appendKeyImpl`. -/
def appendKeyImplO (k : List Nat) (b : Builder) : Option Builder :=
  (if (ensure (k.length + 4) b).need_comma
    then writeRawO [44] (ensure (k.length + 4) b)
    else some (ensure (k.length + 4) b)).bind fun b2 =>
    (keyWritesOImpl k b2).bind fun b6 => some { b6 with need_comma := false }

/-- Checked literal-key prelude. -/
def keyLitO (k : List Nat) (extra : Nat) (b : Builder) : Option Builder :=
  (if (ensure (k.length + 1 + extra) b).need_comma
    then writeRawO [44] (ensure (k.length + 1 + extra) b)
    else some (ensure (k.length + 1 + extra) b)).bind fun b2 =>
    keyWritesOImpl k b2

/-- Checked escaping loop. -/
def escLoopO (s : List Nat) (i start : Nat) (b : Builder) : Option (Builder × Nat) :=
  if h : i < s.length then
    let c := s.get ⟨i, h⟩
    match repl c with
    | some r =>
      (if start < i then writeRawO (slice s start i) b else some b).bind fun b1 =>
        (writeRawO r b1).bind fun b2 =>
          escLoopO s (i + 1) (i + 1) b2
    | none =>
      if c < 32 then
        (if start < i then writeRawO (slice s start i) b else some b).bind fun b1 =>
          escLoopO s (i + 1) (i + 1) b1
      else
        escLoopO s (i + 1) start b
  else some (b, start)
termination_by s.length - i
decreasing_by all_goals omega

/-- Checked final run flush. -/
def flushTailO (s : List Nat) (p : Builder × Nat) : Option Builder :=
  if p.2 < s.length then writeRawO (slice s p.2 s.length) p.1 else some p.1

/-- Checked `escapeString`. -/
def escapeStringO (s : List Nat) (b : Builder) : Option Builder :=
  (writeRawO [34] (ensure (s.length * 2 + 2) b)).bind fun b2 =>
    ((escLoopO s 0 0 b2).bind (flushTailO s)).bind fun b3 =>
      writeRawO [34] b3

/-- Checked `writeInt`. -/
def writeIntO (w : Nat) (v : Int) (b : Builder) : Option Builder :=
  if v = 0 then writeRawO [48] (ensure 24 b)
  else if v < 0 then
    (writeRawO [45] (ensure 24 b)).bind fun b2 =>
      writeRawO (digitLoop ((2 ^ w - (v % (2 ^ w : Int)).toNat) % 2 ^ w) []) b2
  else
    writeRawO (digitLoop ((v % (2 ^ w : Int)).toNat) []) (ensure 24 b)

/-- Checked `writeNull`. -/
def writeNullO (b : Builder) : Option Builder :=
  writeRawO [110, 117, 108, 108] (ensure 4 b)

/-- Checked `start()`. -/
def startO (b : Builder) : Option Builder :=
  (commaO b).bind fun b1 =>
    (writeRawO [123] (ensure 1 b1)).bind fun b2 =>
      some { b2 with need_comma := false }

/-- Checked `end()`. -/
def endObjO (b : Builder) : Option Builder :=
  (writeRawO [125] (ensure 1 b)).bind fun b1 =>
    some { b1 with need_comma := true }

/-- Checked `startArray()`. -/
def startArrayO (b : Builder) : Option Builder :=
  (commaO b).bind fun b1 =>
    (writeRawO [91] (ensure 1 b1)).bind fun b2 =>
      some { b2 with need_comma := false }

/-- Checked `endArray()`. -/
def endArrayO (b : Builder) : Option Builder :=
  (writeRawO [93] (ensure 1 b)).bind fun b1 =>
    some { b1 with need_comma := true }

/-- Checked `key`. -/
def keyO (k : List Nat) (b : Builder) : Option Builder := appendKeyImplO k b

/-- Checked runtime-key `add` (integer). -/
def addIntO (k : List Nat) (w : Nat) (v : Int) (b : Builder) : Option Builder :=
  (appendKeyImplO k b).bind fun b1 =>
    (writeIntO w v b1).bind fun b2 => some { b2 with need_comma := true }

/-- Checked runtime-key `addString`. -/
def addStringO (k v : List Nat) (b : Builder) : Option Builder :=
  (appendKeyImplO k b).bind fun b1 =>
    (escapeStringO v b1).bind fun b2 => some { b2 with need_comma := true }

/-- Checked runtime-key `addNull`. -/
def addNullO (k : List Nat) (b : Builder) : Option Builder :=
  (appendKeyImplO k b).bind fun b1 =>
    (writeNullO b1).bind fun b2 => some { b2 with need_comma := true }

/-- Checked `addOrNull`. -/
def addOrNullO (k : List Nat) (w : Nat) (v u : Int) (b : Builder) : Option Builder :=
  (appendKeyImplO k b).bind fun b1 =>
    ((if v = u then writeNullO b1 else writeIntO w v b1).bind fun b2 =>
      some { b2 with need_comma := true })

/-- Checked runtime-key `addStringOrNull`. -/
def addStringOrNullO (k s : List Nat) (b : Builder) : Option Builder :=
  (appendKeyImplO k b).bind fun b1 =>
    ((if s = [] then writeNullO b1 else escapeStringO s b1).bind fun b2 =>
      some { b2 with need_comma := true })

/-- Checked literal-key `add` (integer). -/
def addIntLitO (k : List Nat) (w : Nat) (v : Int) (b : Builder) : Option Builder :=
  (keyLitO k 27 b).bind fun b1 =>
    (writeIntO w v b1).bind fun b2 => some { b2 with need_comma := true }

/-- Checked literal-key `addString`. -/
def addStringLitO (k s : List Nat) (b : Builder) : Option Builder :=
  (keyLitO k 3 b).bind fun b1 =>
    (escapeStringO s b1).bind fun b2 => some { b2 with need_comma := true }

/-- Checked literal-key `addStringOrNull` (`std::string`). -/
def addStringOrNullLitO (k s : List Nat) (b : Builder) : Option Builder :=
  (keyLitO k 3 b).bind fun b1 =>
    ((if s = [] then writeNullO b1 else escapeStringO s b1).bind fun b2 =>
      some { b2 with need_comma := true })

/-- Checked literal-key `addStringOrNull` (`const char*`). -/
def addStringOrNullLitCO (k : List Nat) (s : Option (List Nat)) (b : Builder) :
    Option Builder :=
  (keyLitO k 3 b).bind fun b1 =>
    ((match s with
      | none => writeNullO b1
      | some t => if t = [] then writeNullO b1 else escapeStringO t b1).bind
      fun b2 => some { b2 with need_comma := true })

/-- Checked `addIf`. -/
def addIfO (c : Bool) (k : List Nat) (w : Nat) (v : Int) (b : Builder) :
    Option Builder :=
  if c then addIntLitO k w v b else some b

/-- Checked `addStringIf`. -/
def addStringIfO (c : Bool) (k s : List Nat) (b : Builder) : Option Builder :=
  if c then addStringLitO k s b else some b

/-- Checked `value` (integer). -/
def valueIntO (w : Nat) (v : Int) (b : Builder) : Option Builder :=
  (commaO b).bind (writeIntO w v)

/-- Checked `value` (text). -/
def valueStringO (s : List Nat) (b : Builder) : Option Builder :=
  (commaO b).bind (escapeStringO s)

/-- Checked `valueNull`. -/
def valueNullO (b : Builder) : Option Builder :=
  (commaO b).bind writeNullO

/-- Checked `valueOrNull`. -/
def valueOrNullO (w : Nat) (v u : Int) (b : Builder) : Option Builder :=
  (commaO b).bind fun b1 => if v = u then writeNullO b1 else writeIntO w v b1

/-- Checked `valueStringOrNull` (`std::string`). -/
def valueStringOrNullO (s : List Nat) (b : Builder) : Option Builder :=
  (commaO b).bind fun b1 => if s = [] then writeNullO b1 else escapeStringO s b1

/-- Checked `valueStringOrNull` (`const char*`). -/
def valueStringOrNullCO (s : Option (List Nat)) (b : Builder) : Option Builder :=
  (commaO b).bind fun b1 =>
    match s with
    | none => writeNullO b1
    | some t => if t = [] then writeNullO b1 else escapeStringO t b1

/-- Run one call through the bounds-checked interpreter. -/
def applyO : Op → Builder → Option Builder
  | .opStart, b => startO b
  | .opEnd, b => endObjO b
  | .opStartArray, b => startArrayO b
  | .opEndArray, b => endArrayO b
  | .opKey k, b => keyO k b
  | .opAddInt k w v, b => addIntO k w v b
  | .opAddString k v, b => addStringO k v b
  | .opAddNull k, b => addNullO k b
  | .opAddOrNull k w v u, b => addOrNullO k w v u b
  | .opAddStringOrNull k s, b => addStringOrNullO k s b
  | .opAddIntLit k w v, b => addIntLitO k w v b
  | .opAddStringLit k v, b => addStringLitO k v b
  | .opAddStringOrNullLit k s, b => addStringOrNullLitO k s b
  | .opAddStringOrNullLitC k s, b => addStringOrNullLitCO k s b
  | .opAddIf c k w v, b => addIfO c k w v b
  | .opAddStringIf c k s, b => addStringIfO c k s b
  | .opValueInt w v, b => valueIntO w v b
  | .opValueString s, b => valueStringO s b
  | .opValueNull, b => valueNullO b
  | .opValueOrNull w v u, b => valueOrNullO w v u b
  | .opValueStringOrNull s, b => valueStringOrNullO s b
  | .opValueStringOrNullC s, b => valueStringOrNullCO s b

/-! ### The checked interpreter succeeds: every write is in bounds -/

theorem writeRawO_of_le (data : List Nat) (b : Builder)
    (h : b.cursor + data.length ≤ b.buf.length) :
    writeRawO data b = some (writeRaw data b) := by
  unfold writeRawO
  rw [if_pos h]

theorem commaO_eq (b : Builder) (h : Wf b) : commaO b = some (comma b) := by
  have hcap := ensure_cap 1 b
  have hcur := ensure_cursor 1 b
  unfold commaO comma
  by_cases hf : b.need_comma
  · rw [if_pos hf, if_pos hf,
      writeRawO_of_le [44] (ensure 1 b) (by simp; omega)]
    rfl
  · rw [if_neg hf, if_neg hf]
    rfl

theorem keyWritesOImpl_eq (k : List Nat) (x : Builder)
    (h : x.cursor + (k.length + 3) ≤ x.buf.length) :
    keyWritesOImpl k x =
      some (writeByte 58 (writeByte 34 (writeRaw k (writeByte 34 x)))) := by
  obtain ⟨p1, p2, p3, p4⟩ := writeRaw_spec [34] x (by simp; omega)
  have hb2 : (writeRaw [34] x).cursor + k.length ≤ (writeRaw [34] x).buf.length := by
    rw [p1, p2]
    simp
    omega
  obtain ⟨q1, q2, q3, q4⟩ := writeRaw_spec k (writeRaw [34] x) hb2
  have hb3 : (writeRaw k (writeRaw [34] x)).cursor + 1 ≤
      (writeRaw k (writeRaw [34] x)).buf.length := by
    rw [q1, q2, p1, p2]
    simp
    omega
  obtain ⟨r1, r2, r3, r4⟩ :=
    writeRaw_spec [34] (writeRaw k (writeRaw [34] x)) hb3
  have hb4 : (writeRaw [34] (writeRaw k (writeRaw [34] x))).cursor + 1 ≤
      (writeRaw [34] (writeRaw k (writeRaw [34] x))).buf.length := by
    rw [r1, r2, q1, q2, p1, p2]
    simp
    omega
  unfold keyWritesOImpl
  rw [writeRawO_of_le [34] x (by simp; omega)]
  simp only [Option.some_bind]
  rw [writeRawO_of_le k (writeRaw [34] x) hb2]
  simp only [Option.some_bind]
  rw [writeRawO_of_le [34] (writeRaw k (writeRaw [34] x)) hb3]
  simp only [Option.some_bind]
  rw [writeRawO_of_le [58] (writeRaw [34] (writeRaw k (writeRaw [34] x))) hb4]
  rfl

theorem appendKeyImplO_eq (k : List Nat) (b : Builder) (h : Wf b) :
    appendKeyImplO k b = some (appendKeyImpl k b) := by
  have hcap := ensure_cap (k.length + 4) b
  have hcur := ensure_cursor (k.length + 4) b
  have hflag := ensure_flag (k.length + 4) b
  unfold appendKeyImplO
  by_cases hf : b.need_comma
  · rw [hflag, if_pos hf, writeRawO_of_le [44] _ (by simp; omega)]
    simp only [Option.some_bind]
    obtain ⟨c1, c2, c3, c4⟩ :=
      writeRaw_spec [44] (ensure (k.length + 4) b) (by simp; omega)
    rw [keyWritesOImpl_eq k _ (by rw [c1, c2, hcur]; simp; omega)]
    simp only [Option.some_bind]
    have h2 : appendKeyImpl k b =
        { writeByte 58 (writeByte 34 (writeRaw k (writeByte 34
          (writeRaw [44] (ensure (k.length + 4) b)))))
          with need_comma := false } := by
      show { writeByte 58 (writeByte 34 (writeRaw k (writeByte 34
        (if (ensure (k.length + 4) b).need_comma = true
          then writeByte 44 (ensure (k.length + 4) b)
          else ensure (k.length + 4) b)))) with need_comma := false } = _
      rw [hflag, if_pos hf, writeByte_eq 44]
    rw [h2]
  · rw [hflag, if_neg hf]
    simp only [Option.some_bind]
    rw [keyWritesOImpl_eq k _ (by rw [hcur]; omega)]
    simp only [Option.some_bind]
    have h2 : appendKeyImpl k b =
        { writeByte 58 (writeByte 34 (writeRaw k (writeByte 34
          (ensure (k.length + 4) b)))) with need_comma := false } := by
      show { writeByte 58 (writeByte 34 (writeRaw k (writeByte 34
        (if (ensure (k.length + 4) b).need_comma = true
          then writeByte 44 (ensure (k.length + 4) b)
          else ensure (k.length + 4) b)))) with need_comma := false } = _
      rw [hflag, if_neg hf]
    rw [h2]

theorem keyLitO_eq (k : List Nat) (extra : Nat) (b : Builder) (h : Wf b)
    (hx : 3 ≤ extra) :
    keyLitO k extra b = some (keyLit k extra b) := by
  have hcap := ensure_cap (k.length + 1 + extra) b
  have hcur := ensure_cursor (k.length + 1 + extra) b
  have hflag := ensure_flag (k.length + 1 + extra) b
  unfold keyLitO
  by_cases hf : b.need_comma
  · rw [hflag, if_pos hf, writeRawO_of_le [44] _ (by simp; omega)]
    simp only [Option.some_bind]
    obtain ⟨c1, c2, c3, c4⟩ :=
      writeRaw_spec [44] (ensure (k.length + 1 + extra) b) (by simp; omega)
    rw [keyWritesOImpl_eq k _ (by rw [c1, c2, hcur]; simp; omega)]
    have h2 : keyLit k extra b =
        writeByte 58 (writeByte 34 (writeRaw k (writeByte 34
          (writeRaw [44] (ensure (k.length + 1 + extra) b))))) := by
      show writeByte 58 (writeByte 34 (writeRaw k (writeByte 34
        (if (ensure (k.length + 1 + extra) b).need_comma = true
          then writeByte 44 (ensure (k.length + 1 + extra) b)
          else ensure (k.length + 1 + extra) b)))) = _
      rw [hflag, if_pos hf, writeByte_eq 44]
    rw [h2]
  · rw [hflag, if_neg hf]
    simp only [Option.some_bind]
    rw [keyWritesOImpl_eq k _ (by rw [hcur]; omega)]
    have h2 : keyLit k extra b =
        writeByte 58 (writeByte 34 (writeRaw k (writeByte 34
          (ensure (k.length + 1 + extra) b)))) := by
      show writeByte 58 (writeByte 34 (writeRaw k (writeByte 34
        (if (ensure (k.length + 1 + extra) b).need_comma = true
          then writeByte 44 (ensure (k.length + 1 + extra) b)
          else ensure (k.length + 1 + extra) b)))) = _
      rw [hflag, if_neg hf]
    rw [h2]

theorem writeNullO_eq (b : Builder) (h : Wf b) :
    writeNullO b = some (writeNull b) := by
  have hcap := ensure_cap 4 b
  have hcur := ensure_cursor 4 b
  unfold writeNullO
  rw [writeRawO_of_le _ _ (by rw [hcur]; simp; omega)]
  rfl

theorem writeIntO_eq (w : Nat) (v : Int) (b : Builder) (hw : w ≤ 64)
    (h : Wf b) : writeIntO w v b = some (writeInt w v b) := by
  have hcap := ensure_cap 24 b
  have hcur := ensure_cursor 24 b
  have hL := writeIntBytes_len w v hw
  unfold writeIntO
  by_cases h0 : v = 0
  · rw [if_pos h0, writeRawO_of_le [48] _ (by simp; omega)]
    have h2 : writeInt w v b = writeByte 48 (ensure 24 b) := by
      show (if v = 0 then writeByte 48 (ensure 24 b)
        else if v < 0 then
          writeRaw (digitLoop ((2 ^ w - (v % (2 ^ w : Int)).toNat) % 2 ^ w) [])
            (writeByte 45 (ensure 24 b))
        else writeRaw (digitLoop ((v % (2 ^ w : Int)).toNat) [])
          (ensure 24 b)) = _
      rw [if_pos h0]
    rw [h2, writeByte_eq]
  · by_cases hneg : v < 0
    · have hbytes : writeIntBytes w v =
          45 :: digitLoop ((2 ^ w - (v % (2 ^ w : Int)).toNat) % 2 ^ w) [] := by
        unfold writeIntBytes
        rw [if_neg h0, if_pos hneg]
      have hdl : (digitLoop ((2 ^ w - (v % (2 ^ w : Int)).toNat) % 2 ^ w) []).length ≤ 23 := by
        rw [hbytes] at hL
        simp only [List.length_cons] at hL
        omega
      rw [if_neg h0, if_pos hneg,
        writeRawO_of_le [45] _ (by simp; omega)]
      simp only [Option.some_bind]
      obtain ⟨p1, p2, p3, p4⟩ := writeRaw_spec [45] (ensure 24 b) (by simp; omega)
      rw [writeRawO_of_le _ _ (by rw [p1, p2, hcur]; simp; omega)]
      have h2 : writeInt w v b =
          writeRaw (digitLoop ((2 ^ w - (v % (2 ^ w : Int)).toNat) % 2 ^ w) [])
            (writeByte 45 (ensure 24 b)) := by
        show (if v = 0 then writeByte 48 (ensure 24 b)
          else if v < 0 then
            writeRaw (digitLoop ((2 ^ w - (v % (2 ^ w : Int)).toNat) % 2 ^ w) [])
              (writeByte 45 (ensure 24 b))
          else writeRaw (digitLoop ((v % (2 ^ w : Int)).toNat) [])
            (ensure 24 b)) = _
        rw [if_neg h0, if_pos hneg]
      rw [h2, writeByte_eq]
    · have hbytes : writeIntBytes w v =
          digitLoop ((v % (2 ^ w : Int)).toNat) [] := by
        unfold writeIntBytes
        rw [if_neg h0, if_neg hneg]
      have hdl : (digitLoop ((v % (2 ^ w : Int)).toNat) []).length ≤ 24 := by
        rw [hbytes] at hL
        omega
      rw [if_neg h0, if_neg hneg,
        writeRawO_of_le _ _ (by rw [hcur]; omega)]
      have h2 : writeInt w v b =
          writeRaw (digitLoop ((v % (2 ^ w : Int)).toNat) []) (ensure 24 b) := by
        show (if v = 0 then writeByte 48 (ensure 24 b)
          else if v < 0 then
            writeRaw (digitLoop ((2 ^ w - (v % (2 ^ w : Int)).toNat) % 2 ^ w) [])
              (writeByte 45 (ensure 24 b))
          else writeRaw (digitLoop ((v % (2 ^ w : Int)).toNat) [])
            (ensure 24 b)) = _
        rw [if_neg h0, if_neg hneg]
      rw [h2]

theorem escLoopO_end (s : List Nat) (i start : Nat) (b : Builder)
    (h : ¬ i < s.length) : escLoopO s i start b = some (b, start) := by
  rw [escLoopO]
  simp [h]

theorem escLoopO_step_some (s : List Nat) (i start : Nat) (b : Builder)
    (h : i < s.length) (r : List Nat) (hr : repl (s.get ⟨i, h⟩) = some r) :
    escLoopO s i start b =
      (if start < i then writeRawO (slice s start i) b else some b).bind fun b1 =>
        (writeRawO r b1).bind fun b2 =>
          escLoopO s (i + 1) (i + 1) b2 := by
  rw [escLoopO]
  simp only [dif_pos h, hr]

theorem escLoopO_step_drop (s : List Nat) (i start : Nat) (b : Builder)
    (h : i < s.length) (hr : repl (s.get ⟨i, h⟩) = none)
    (hc : s.get ⟨i, h⟩ < 32) :
    escLoopO s i start b =
      (if start < i then writeRawO (slice s start i) b else some b).bind fun b1 =>
        escLoopO s (i + 1) (i + 1) b1 := by
  rw [escLoopO]
  simp only [dif_pos h, hr, if_pos hc]

theorem escLoopO_step_plain (s : List Nat) (i start : Nat) (b : Builder)
    (h : i < s.length) (hr : repl (s.get ⟨i, h⟩) = none)
    (hc : ¬ s.get ⟨i, h⟩ < 32) :
    escLoopO s i start b = escLoopO s (i + 1) start b := by
  rw [escLoopO]
  simp only [dif_pos h, hr, if_neg hc]

theorem flushRunO_eq (s : List Nat) (start i : Nat) (b : Builder)
    (hsi : start ≤ i) (hil : i ≤ s.length)
    (hcap : b.cursor + (i - start) ≤ b.buf.length) :
    (if start < i then writeRawO (slice s start i) b else some b) =
      some (if start < i then writeRaw (slice s start i) b else b) := by
  by_cases hlt : start < i
  · rw [if_pos hlt, if_pos hlt,
      writeRawO_of_le _ _ (by rw [slice_len s start i hsi hil]; omega)]
  · rw [if_neg hlt, if_neg hlt]

theorem escLoopO_flush (s : List Nat) (d : Nat) : ∀ (i start : Nat) (b : Builder),
    s.length - i ≤ d → start ≤ i → i ≤ s.length →
    b.cursor + ((i - start) + 2 * (s.length - i)) ≤ b.buf.length →
    (escLoopO s i start b).bind (flushTailO s) =
      some (flushTail s (escLoop s i start b)) := by
  induction d with
  | zero =>
    intro i start b hd hsi hil hcap
    have hie : ¬ i < s.length := by omega
    have hi : i = s.length := by omega
    subst hi
    rw [escLoopO_end s _ start b hie, escLoop_end s _ start b hie,
      Option.some_bind]
    unfold flushTailO flushTail
    show (if start < s.length then writeRawO (slice s start s.length) b
        else some b) =
      some (if start < s.length then writeRaw (slice s start s.length) b else b)
    by_cases hs : start < s.length
    · rw [if_pos hs, if_pos hs, writeRawO_of_le _ _
        (by rw [slice_len s start s.length hsi (le_refl _)]; omega)]
    · rw [if_neg hs, if_neg hs]
  | succ d ih =>
    intro i start b hd hsi hil hcap
    by_cases hlt : i < s.length
    · obtain ⟨f1, f2, f3, f4⟩ := flushRun_spec s start i b hsi (by omega) (by omega)
      rcases hr : repl (s.get ⟨i, hlt⟩) with _ | r
      · by_cases hc : s.get ⟨i, hlt⟩ < 32
        · rw [escLoopO_step_drop s i start b hlt hr hc,
            escLoop_step_drop s i start b hlt hr hc,
            flushRunO_eq s start i b hsi (by omega) (by omega)]
          simp only [Option.some_bind]
          exact ih (i + 1) (i + 1) _ (by omega) (le_refl _) (by omega)
            (by rw [f3, f1]; omega)
        · rw [escLoopO_step_plain s i start b hlt hr hc,
            escLoop_step_plain s i start b hlt hr hc]
          exact ih (i + 1) start b (by omega) (by omega) (by omega) (by omega)
      · have hr2 : r.length = 2 := repl_some_len _ r hr
        rw [escLoopO_step_some s i start b hlt r hr,
          escLoop_step_some s i start b hlt r hr,
          flushRunO_eq s start i b hsi (by omega) (by omega)]
        simp only [Option.some_bind]
        rw [writeRawO_of_le r _ (by rw [f3, f1]; omega)]
        simp only [Option.some_bind]
        obtain ⟨e1, e2, e3, e4⟩ := writeRaw_spec r
          (if start < i then writeRaw (slice s start i) b else b)
          (by rw [f3, f1]; omega)
        exact ih (i + 1) (i + 1) _ (by omega) (le_refl _) (by omega)
          (by rw [e2, e1, f3, f1]; omega)
    · have hi : i = s.length := by omega
      subst hi
      rw [escLoopO_end s _ start b hlt, escLoop_end s _ start b hlt,
        Option.some_bind]
      unfold flushTailO flushTail
      show (if start < s.length then writeRawO (slice s start s.length) b
          else some b) =
        some (if start < s.length then writeRaw (slice s start s.length) b else b)
      by_cases hs : start < s.length
      · rw [if_pos hs, if_pos hs, writeRawO_of_le _ _
          (by rw [slice_len s start s.length hsi (le_refl _)]; omega)]
      · rw [if_neg hs, if_neg hs]

theorem escapeStringO_eq (s : List Nat) (b : Builder) (h : Wf b) :
    escapeStringO s b = some (escapeString s b) := by
  have hcap := ensure_cap (s.length * 2 + 2) b
  have hcur := ensure_cursor (s.length * 2 + 2) b
  have hel := escSpec_len_le s
  obtain ⟨q1, q2, q3, q4⟩ := writeRaw_spec [34] (ensure (s.length * 2 + 2) b)
    (by simp; omega)
  obtain ⟨p1, p2, p3, p4⟩ := escLoop_flush s s.length 0 0
    (writeRaw [34] (ensure (s.length * 2 + 2) b)) (by omega) (by omega)
    (by omega) (by rw [q2, q1, hcur]; simp; omega)
  unfold escapeStringO
  rw [writeRawO_of_le [34] _ (by rw [hcur]; simp; omega)]
  simp only [Option.some_bind]
  rw [escLoopO_flush s s.length 0 0 _ (by omega) (by omega) (by omega)
    (by rw [q2, q1, hcur]; simp; omega)]
  simp only [Option.some_bind]
  rw [writeRawO_of_le [34] _ (by rw [p3, p1, q2, q1, hcur]; simp; omega)]
  rfl

theorem startO_eq (b : Builder) (h : Wf b) : startO b = some (start b) := by
  have hcap := ensure_cap 1 (comma b)
  have hcur := ensure_cursor 1 (comma b)
  unfold startO
  rw [commaO_eq b h]
  simp only [Option.some_bind]
  rw [writeRawO_of_le [123] _ (by rw [hcur]; simp; omega)]
  rfl

theorem endObjO_eq (b : Builder) (h : Wf b) : endObjO b = some (end_ b) := by
  have hcap := ensure_cap 1 b
  have hcur := ensure_cursor 1 b
  unfold endObjO
  rw [writeRawO_of_le [125] _ (by rw [hcur]; simp; omega)]
  rfl

theorem startArrayO_eq (b : Builder) (h : Wf b) :
    startArrayO b = some (startArray b) := by
  have hcap := ensure_cap 1 (comma b)
  have hcur := ensure_cursor 1 (comma b)
  unfold startArrayO
  rw [commaO_eq b h]
  simp only [Option.some_bind]
  rw [writeRawO_of_le [91] _ (by rw [hcur]; simp; omega)]
  rfl

theorem endArrayO_eq (b : Builder) (h : Wf b) :
    endArrayO b = some (endArray b) := by
  have hcap := ensure_cap 1 b
  have hcur := ensure_cursor 1 b
  unfold endArrayO
  rw [writeRawO_of_le [93] _ (by rw [hcur]; simp; omega)]
  rfl

theorem keyO_eq (k : List Nat) (b : Builder) (h : Wf b) :
    keyO k b = some (key k b) :=
  appendKeyImplO_eq k b h

theorem addIntO_eq (k : List Nat) (w : Nat) (v : Int) (b : Builder)
    (hw : w ≤ 64) (h : Wf b) : addIntO k w v b = some (addInt k w v b) := by
  unfold addIntO
  rw [appendKeyImplO_eq k b h]
  simp only [Option.some_bind]
  rw [writeIntO_eq w v _ hw (appendKeyImpl_spec k b h).2.2.2.2]
  simp only [Option.some_bind]
  rfl

theorem addStringO_eq (k s : List Nat) (b : Builder) (h : Wf b) :
    addStringO k s b = some (addString k s b) := by
  unfold addStringO
  rw [appendKeyImplO_eq k b h]
  simp only [Option.some_bind]
  rw [escapeStringO_eq s _ (appendKeyImpl_spec k b h).2.2.2.2]
  simp only [Option.some_bind]
  rfl

theorem addNullO_eq (k : List Nat) (b : Builder) (h : Wf b) :
    addNullO k b = some (addNull k b) := by
  unfold addNullO
  rw [appendKeyImplO_eq k b h]
  simp only [Option.some_bind]
  rw [writeNullO_eq _ (appendKeyImpl_spec k b h).2.2.2.2]
  simp only [Option.some_bind]
  rfl

theorem addOrNullO_eq (k : List Nat) (w : Nat) (v u : Int) (b : Builder)
    (hw : w ≤ 64) (h : Wf b) :
    addOrNullO k w v u b = some (addOrNull k w v u b) := by
  unfold addOrNullO
  rw [appendKeyImplO_eq k b h]
  simp only [Option.some_bind]
  by_cases hvu : v = u
  · rw [if_pos hvu, writeNullO_eq _ (appendKeyImpl_spec k b h).2.2.2.2]
    simp only [Option.some_bind]
    have h2 : addOrNull k w v u b =
        { writeNull (appendKeyImpl k b) with need_comma := true } := by
      simp [addOrNull, hvu]
    rw [h2]
  · rw [if_neg hvu, writeIntO_eq w v _ hw (appendKeyImpl_spec k b h).2.2.2.2]
    simp only [Option.some_bind]
    have h2 : addOrNull k w v u b =
        { writeInt w v (appendKeyImpl k b) with need_comma := true } := by
      simp [addOrNull, hvu]
    rw [h2]

theorem addStringOrNullO_eq (k s : List Nat) (b : Builder) (h : Wf b) :
    addStringOrNullO k s b = some (addStringOrNull k s b) := by
  unfold addStringOrNullO
  rw [appendKeyImplO_eq k b h]
  simp only [Option.some_bind]
  by_cases hs : s = []
  · rw [if_pos hs, writeNullO_eq _ (appendKeyImpl_spec k b h).2.2.2.2]
    simp only [Option.some_bind]
    have h2 : addStringOrNull k s b =
        { writeNull (appendKeyImpl k b) with need_comma := true } := by
      simp [addStringOrNull, hs]
    rw [h2]
  · rw [if_neg hs, escapeStringO_eq s _ (appendKeyImpl_spec k b h).2.2.2.2]
    simp only [Option.some_bind]
    have h2 : addStringOrNull k s b =
        { escapeString s (appendKeyImpl k b) with need_comma := true } := by
      simp [addStringOrNull, hs]
    rw [h2]

theorem addIntLitO_eq (k : List Nat) (w : Nat) (v : Int) (b : Builder)
    (hw : w ≤ 64) (h : Wf b) :
    addIntLitO k w v b = some (addIntLit k w v b) := by
  unfold addIntLitO
  rw [keyLitO_eq k 27 b h (by norm_num)]
  simp only [Option.some_bind]
  rw [writeIntO_eq w v _ hw (keyLit_spec k 27 b h (by norm_num)).2.2.2.2]
  simp only [Option.some_bind]
  rfl

theorem addStringLitO_eq (k s : List Nat) (b : Builder) (h : Wf b) :
    addStringLitO k s b = some (addStringLit k s b) := by
  unfold addStringLitO
  rw [keyLitO_eq k 3 b h (by norm_num)]
  simp only [Option.some_bind]
  rw [escapeStringO_eq s _ (keyLit_spec k 3 b h (by norm_num)).2.2.2.2]
  simp only [Option.some_bind]
  rfl

theorem addStringOrNullLitO_eq (k s : List Nat) (b : Builder) (h : Wf b) :
    addStringOrNullLitO k s b = some (addStringOrNullLit k s b) := by
  unfold addStringOrNullLitO
  rw [keyLitO_eq k 3 b h (by norm_num)]
  simp only [Option.some_bind]
  by_cases hs : s = []
  · rw [if_pos hs, writeNullO_eq _ (keyLit_spec k 3 b h (by norm_num)).2.2.2.2]
    simp only [Option.some_bind]
    have h2 : addStringOrNullLit k s b =
        { writeNull (keyLit k 3 b) with need_comma := true } := by
      simp [addStringOrNullLit, hs]
    rw [h2]
  · rw [if_neg hs, escapeStringO_eq s _ (keyLit_spec k 3 b h (by norm_num)).2.2.2.2]
    simp only [Option.some_bind]
    have h2 : addStringOrNullLit k s b =
        { escapeString s (keyLit k 3 b) with need_comma := true } := by
      simp [addStringOrNullLit, hs]
    rw [h2]

theorem addStringOrNullLitCO_eq (k : List Nat) (s : Option (List Nat))
    (b : Builder) (h : Wf b) :
    addStringOrNullLitCO k s b = some (addStringOrNullLitC k s b) := by
  unfold addStringOrNullLitCO
  rw [keyLitO_eq k 3 b h (by norm_num)]
  simp only [Option.some_bind]
  cases s with
  | none =>
    rw [show (match (none : Option (List Nat)) with
        | none => writeNullO (keyLit k 3 b)
        | some t => if t = [] then writeNullO (keyLit k 3 b)
            else escapeStringO t (keyLit k 3 b)) =
        writeNullO (keyLit k 3 b) from rfl,
      writeNullO_eq _ (keyLit_spec k 3 b h (by norm_num)).2.2.2.2]
    simp only [Option.some_bind]
    rfl
  | some t =>
    by_cases ht : t = []
    · rw [show (match (some t : Option (List Nat)) with
          | none => writeNullO (keyLit k 3 b)
          | some t2 => if t2 = [] then writeNullO (keyLit k 3 b)
              else escapeStringO t2 (keyLit k 3 b)) =
          (if t = [] then writeNullO (keyLit k 3 b)
            else escapeStringO t (keyLit k 3 b)) from rfl,
        if_pos ht, writeNullO_eq _ (keyLit_spec k 3 b h (by norm_num)).2.2.2.2]
      simp only [Option.some_bind]
      have h2 : addStringOrNullLitC k (some t) b =
          { writeNull (keyLit k 3 b) with need_comma := true } := by
        simp [addStringOrNullLitC, ht]
      rw [h2]
    · rw [show (match (some t : Option (List Nat)) with
          | none => writeNullO (keyLit k 3 b)
          | some t2 => if t2 = [] then writeNullO (keyLit k 3 b)
              else escapeStringO t2 (keyLit k 3 b)) =
          (if t = [] then writeNullO (keyLit k 3 b)
            else escapeStringO t (keyLit k 3 b)) from rfl,
        if_neg ht,
        escapeStringO_eq t _ (keyLit_spec k 3 b h (by norm_num)).2.2.2.2]
      simp only [Option.some_bind]
      have h2 : addStringOrNullLitC k (some t) b =
          { escapeString t (keyLit k 3 b) with need_comma := true } := by
        simp [addStringOrNullLitC, ht]
      rw [h2]

theorem addIfO_eq (c : Bool) (k : List Nat) (w : Nat) (v : Int) (b : Builder)
    (hw : w ≤ 64) (h : Wf b) : addIfO c k w v b = some (addIf c k w v b) := by
  cases c
  · rfl
  · show addIntLitO k w v b = some (addIntLit k w v b)
    exact addIntLitO_eq k w v b hw h

theorem addStringIfO_eq (c : Bool) (k s : List Nat) (b : Builder) (h : Wf b) :
    addStringIfO c k s b = some (addStringIf c k s b) := by
  cases c
  · rfl
  · show addStringLitO k s b = some (addStringLit k s b)
    exact addStringLitO_eq k s b h

theorem valueIntO_eq (w : Nat) (v : Int) (b : Builder) (hw : w ≤ 64)
    (h : Wf b) : valueIntO w v b = some (valueInt w v b) := by
  unfold valueIntO
  rw [commaO_eq b h]
  simp only [Option.some_bind]
  exact writeIntO_eq w v (comma b) hw (comma_spec b h).2.2.2.2

theorem valueStringO_eq (s : List Nat) (b : Builder) (h : Wf b) :
    valueStringO s b = some (valueString s b) := by
  unfold valueStringO
  rw [commaO_eq b h]
  simp only [Option.some_bind]
  exact escapeStringO_eq s (comma b) (comma_spec b h).2.2.2.2

theorem valueNullO_eq (b : Builder) (h : Wf b) :
    valueNullO b = some (valueNull b) := by
  unfold valueNullO
  rw [commaO_eq b h]
  simp only [Option.some_bind]
  exact writeNullO_eq (comma b) (comma_spec b h).2.2.2.2

theorem valueOrNullO_eq (w : Nat) (v u : Int) (b : Builder) (hw : w ≤ 64)
    (h : Wf b) : valueOrNullO w v u b = some (valueOrNull w v u b) := by
  unfold valueOrNullO
  rw [commaO_eq b h]
  simp only [Option.some_bind]
  by_cases hvu : v = u
  · rw [if_pos hvu]
    have h2 : valueOrNull w v u b = writeNull (comma b) := by
      simp [valueOrNull, hvu]
    rw [h2]
    exact writeNullO_eq (comma b) (comma_spec b h).2.2.2.2
  · rw [if_neg hvu]
    have h2 : valueOrNull w v u b = writeInt w v (comma b) := by
      simp [valueOrNull, hvu]
    rw [h2]
    exact writeIntO_eq w v (comma b) hw (comma_spec b h).2.2.2.2

theorem valueStringOrNullO_eq (s : List Nat) (b : Builder) (h : Wf b) :
    valueStringOrNullO s b = some (valueStringOrNull s b) := by
  unfold valueStringOrNullO
  rw [commaO_eq b h]
  simp only [Option.some_bind]
  by_cases hs : s = []
  · rw [if_pos hs]
    have h2 : valueStringOrNull s b = writeNull (comma b) := by
      simp [valueStringOrNull, hs]
    rw [h2]
    exact writeNullO_eq (comma b) (comma_spec b h).2.2.2.2
  · rw [if_neg hs]
    have h2 : valueStringOrNull s b = escapeString s (comma b) := by
      simp [valueStringOrNull, hs]
    rw [h2]
    exact escapeStringO_eq s (comma b) (comma_spec b h).2.2.2.2

theorem valueStringOrNullCO_eq (s : Option (List Nat)) (b : Builder)
    (h : Wf b) : valueStringOrNullCO s b = some (valueStringOrNullC s b) := by
  unfold valueStringOrNullCO
  rw [commaO_eq b h]
  simp only [Option.some_bind]
  cases s with
  | none =>
    exact writeNullO_eq (comma b) (comma_spec b h).2.2.2.2
  | some t =>
    by_cases ht : t = []
    · show (if t = [] then writeNullO (comma b) else escapeStringO t (comma b)) =
        some (valueStringOrNullC (some t) b)
      rw [if_pos ht]
      have h2 : valueStringOrNullC (some t) b = writeNull (comma b) := by
        simp [valueStringOrNullC, ht]
      rw [h2]
      exact writeNullO_eq (comma b) (comma_spec b h).2.2.2.2
    · show (if t = [] then writeNullO (comma b) else escapeStringO t (comma b)) =
        some (valueStringOrNullC (some t) b)
      rw [if_neg ht]
      have h2 : valueStringOrNullC (some t) b = escapeString t (comma b) := by
        simp [valueStringOrNullC, ht]
      rw [h2]
      exact escapeStringO_eq t (comma b) (comma_spec b h).2.2.2.2

/-- The bounds-checked interpreter succeeds on every public operation and
returns exactly the unchecked result: no operation ever writes outside
the capacity its `ensure` calls reserved. -/
theorem applyO_eq (op : Op) (b : Builder) (hop : op.wfOp) (h : Wf b) :
    applyO op b = some (apply op b) := by
  cases op with
  | opStart => exact startO_eq b h
  | opEnd => exact endObjO_eq b h
  | opStartArray => exact startArrayO_eq b h
  | opEndArray => exact endArrayO_eq b h
  | opKey k => exact keyO_eq k b h
  | opAddInt k w v => exact addIntO_eq k w v b hop h
  | opAddString k v => exact addStringO_eq k v b h
  | opAddNull k => exact addNullO_eq k b h
  | opAddOrNull k w v u => exact addOrNullO_eq k w v u b hop h
  | opAddStringOrNull k s => exact addStringOrNullO_eq k s b h
  | opAddIntLit k w v => exact addIntLitO_eq k w v b hop h
  | opAddStringLit k v => exact addStringLitO_eq k v b h
  | opAddStringOrNullLit k s => exact addStringOrNullLitO_eq k s b h
  | opAddStringOrNullLitC k s => exact addStringOrNullLitCO_eq k s b h
  | opAddIf c k w v => exact addIfO_eq c k w v b hop h
  | opAddStringIf c k s => exact addStringIfO_eq c k s b h
  | opValueInt w v => exact valueIntO_eq w v b hop h
  | opValueString s => exact valueStringO_eq s b h
  | opValueNull => exact valueNullO_eq b h
  | opValueOrNull w v u => exact valueOrNullO_eq w v u b hop h
  | opValueStringOrNull s => exact valueStringOrNullO_eq s b h
  | opValueStringOrNullC s => exact valueStringOrNullCO_eq s b h

/-! ### The emitted integer bytes are the decimal representation -/

theorem writeIntBytes_eq (w : Nat) (v : Int) (hw1 : 1 ≤ w)
    (hlo : -(2 ^ (w - 1) : Int) ≤ v) (hhi : v < (2 ^ (w - 1) : Int)) :
    writeIntBytes w v = (if v < 0 then [45] else []) ++
      (if v = 0 then [48]
       else ((Nat.digits 10 v.natAbs).map (fun d => 48 + d)).reverse) := by
  have hpow : (2 : Int) ^ w = 2 * 2 ^ (w - 1) := by
    conv_lhs => rw [show w = (w - 1) + 1 from (Nat.sub_add_cancel hw1).symm]
    rw [pow_succ']
  have hppos : (0 : Int) < 2 ^ (w - 1) := by positivity
  have hc : ((2 ^ w : Nat) : Int) = (2 : Int) ^ w := by push_cast; ring
  by_cases h0 : v = 0
  · simp [writeIntBytes, h0]
  · by_cases hneg : v < 0
    · have hm : v % ((2 : Int) ^ w) = v + 2 ^ w := by
        have h1 : v % ((2 : Int) ^ w) = (v + 2 ^ w * 1) % 2 ^ w := by
          rw [Int.add_mul_emod_self_left]
        rw [h1]
        rw [Int.emod_eq_of_lt (by omega) (by omega)]
        ring
      have hu : ((v % ((2 : Int) ^ w)).toNat : Int) = v + 2 ^ w := by
        rw [hm]
        omega
      have hsub : 2 ^ w - (v % ((2 : Int) ^ w)).toNat = v.natAbs := by
        omega
      have hlt : v.natAbs < 2 ^ w := by omega
      have hfin : (2 ^ w - (v % ((2 : Int) ^ w)).toNat) % 2 ^ w = v.natAbs := by
        rw [hsub, Nat.mod_eq_of_lt hlt]
      simp only [writeIntBytes, h0, if_neg, hneg, if_pos, if_true]
      rw [hfin, digitLoop_eq]
      simp
    · have hm : v % ((2 : Int) ^ w) = v := by
        rw [Int.emod_eq_of_lt (by omega) (by omega)]
      have htn : (v % ((2 : Int) ^ w)).toNat = v.natAbs := by
        rw [hm]
        omega
      simp only [writeIntBytes, h0, hneg, if_neg, if_false]
      rw [htn, digitLoop_eq]
      simp

/-! ### A byte-level model of a standard JSON string-literal parser -/

/-- Value of one hex digit. -/
def hexVal (c : Nat) : Option Nat :=
  if 48 ≤ c ∧ c ≤ 57 then some (c - 48)
  else if 65 ≤ c ∧ c ≤ 70 then some (c - 55)
  else if 97 ≤ c ∧ c ≤ 102 then some (c - 87)
  else none

/-- Decoded byte of a single-character escape `\e`. -/
def unescChar (c : Nat) : Option Nat :=
  if c = 34 then some 34
  else if c = 92 then some 92
  else if c = 47 then some 47
  else if c = 98 then some 8
  else if c = 102 then some 12
  else if c = 110 then some 10
  else if c = 114 then some 13
  else if c = 116 then some 9
  else none

/-- Decode the bytes after the opening quote of a JSON string literal up to
and including the closing quote (which must end the input): handles the
single-character escapes, `\uXXXX` (kept when it denotes a byte), rejects
raw control bytes, and copies everything else. -/
def unescLoop : List Nat → Option (List Nat)
  | [] => none
  | c :: rest =>
    if c = 34 then (if rest.isEmpty then some [] else none)
    else if c = 92 then
      match rest with
      | [] => none
      | e :: rest2 =>
        if e = 117 then
          match rest2 with
          | h1 :: h2 :: h3 :: h4 :: rest3 =>
            match hexVal h1, hexVal h2, hexVal h3, hexVal h4 with
            | some a, some x, some y, some z =>
              if ((a * 16 + x) * 16 + y) * 16 + z < 256 then
                (unescLoop rest3).map
                  (fun l => (((a * 16 + x) * 16 + y) * 16 + z) :: l)
              else none
            | _, _, _, _ => none
          | _ => none
        else
          match unescChar e with
          | some d => (unescLoop rest2).map (fun l => d :: l)
          | none => none
    else if c < 32 then none
    else (unescLoop rest).map (fun l => c :: l)

/-- Decode a whole JSON string literal (opening quote to closing quote). -/
def unescapeString (l : List Nat) : Option (List Nat) :=
  match l with
  | c :: rest => if c = 34 then unescLoop rest else none
  | [] => none

theorem repl_elim (c : Nat) (r : List Nat) (h : repl c = some r) :
    (c = 34 ∧ r = [92, 34]) ∨ (c = 92 ∧ r = [92, 92]) ∨ (c = 8 ∧ r = [92, 98]) ∨
    (c = 12 ∧ r = [92, 102]) ∨ (c = 10 ∧ r = [92, 110]) ∨
    (c = 13 ∧ r = [92, 114]) ∨ (c = 9 ∧ r = [92, 116]) := by
  unfold repl at h
  repeat' split at h
  all_goals first
    | exact Option.noConfusion h
    | (cases h; simp_all)

theorem repl_none_ne (c : Nat) (h : repl c = none) : c ≠ 34 ∧ c ≠ 92 := by
  unfold repl at h
  repeat' split at h
  all_goals simp_all

/-- The filter keeping exactly the bytes `escapeString` does not drop. -/
def keepByte (c : Nat) : Bool := !((repl c).isNone && decide (c < 32))

theorem unescLoop_escSpec (s : List Nat) :
    unescLoop (escSpec s ++ [34]) = some (s.filter keepByte) := by
  induction s with
  | nil => rfl
  | cons c t ih =>
    rcases hr : repl c with _ | r
    · by_cases hc : c < 32
      · have he : escChar c = [] := escChar_of_drop c hr hc
        have hkeep : keepByte c = false := by simp [keepByte, hr, hc]
        simp only [escSpec, he, List.nil_append, List.filter_cons, hkeep,
          Bool.false_eq_true, if_false]
        exact ih
      · have he : escChar c = [c] := escChar_of_plain c hr hc
        obtain ⟨h34, h92⟩ := repl_none_ne c hr
        have hkeep : keepByte c = true := by simp [keepByte, hr, hc]
        simp only [escSpec, he, List.cons_append, List.filter_cons, hkeep,
          if_true]
        rw [unescLoop.eq_def]
        simp [h34, h92, hc, ih]
    · have he : escChar c = r := escChar_of_some c r hr
      rcases repl_elim c r hr with ⟨hc, hrr⟩ | ⟨hc, hrr⟩ | ⟨hc, hrr⟩ |
        ⟨hc, hrr⟩ | ⟨hc, hrr⟩ | ⟨hc, hrr⟩ | ⟨hc, hrr⟩ <;>
        subst hc <;> subst hrr <;>
        (simp only [escSpec, he, List.cons_append]
         rw [unescLoop.eq_def]
         simp [unescChar, ih, keepByte, repl])

theorem unescapeString_strEmit (s : List Nat) :
    unescapeString (strEmit s) = some (s.filter keepByte) := by
  show unescapeString (34 :: (escSpec s ++ [34])) = _
  unfold unescapeString
  simp [unescLoop_escSpec s]

/-! ### Separator counting for whole arrays and objects -/

theorem intersperse_flatten (sep : List Nat) : ∀ (x : List Nat)
    (xs : List (List Nat)),
    (List.intersperse sep (x :: xs)).flatten =
      x ++ (xs.map (fun y => sep ++ y)).flatten := by
  intro x xs
  induction xs generalizing x with
  | nil => simp
  | cons y ys ih =>
    rw [List.intersperse_cons_cons]
    simp only [List.flatten_cons, List.map_cons]
    rw [ih y]
    simp [List.append_assoc]

theorem count_flatten_intersperse : ∀ (xs : List (List Nat)),
    (∀ x ∈ xs, 44 ∉ x) →
    ((List.intersperse [44] xs).flatten.count 44) = xs.length - 1 := by
  intro xs
  induction xs with
  | nil => intro _; simp
  | cons x ys ih =>
    intro h
    cases ys with
    | nil =>
      simp only [List.intersperse_singleton, List.flatten_cons,
        List.flatten_nil, List.append_nil, List.length_singleton]
      rw [List.count_eq_zero.mpr (h x (by simp))]
    | cons y t =>
      rw [List.intersperse_cons_cons]
      simp only [List.flatten_cons, List.count_append]
      have hx : x.count 44 = 0 := List.count_eq_zero.mpr (h x (by simp))
      have hrest := ih (fun z hz => h z (by simp [hz]))
      simp only [hx, hrest, List.length_cons]
      simp [List.count_cons]
      omega

theorem digitLoop_no_comma (n : Nat) : 44 ∉ digitLoop n [] := by
  rw [digitLoop_eq]
  simp only [List.append_nil, List.mem_reverse, List.mem_map]
  rintro ⟨d, _, hd⟩
  omega

theorem writeIntBytes_no_comma (w : Nat) (v : Int) : 44 ∉ writeIntBytes w v := by
  unfold writeIntBytes
  split
  · simp
  · split
    · simp only [List.mem_cons]
      rintro (h45 | hdig)
      · omega
      · exact digitLoop_no_comma _ hdig
    · exact digitLoop_no_comma _

/-- The bytes of one `"key":int` member of an object. -/
def objItem (w : Nat) (p : List Nat × Int) : List Nat :=
  34 :: (p.1 ++ 34 :: 58 :: writeIntBytes w p.2)

theorem objItem_no_comma (w : Nat) (p : List Nat × Int) (hk : 44 ∉ p.1) :
    44 ∉ objItem w p := by
  have hv := writeIntBytes_no_comma w p.2
  simp only [objItem, List.mem_cons, List.mem_append]
  rintro (h | h | h | h | h) <;> first | omega | exact hk h | exact hv h

theorem outOps_valueInts_true (w : Nat) (rest : List Op) : ∀ vs : List Int,
    outOps (vs.map (fun v => Op.opValueInt w v) ++ rest) true =
      (vs.map (fun v => 44 :: writeIntBytes w v)).flatten ++ outOps rest true := by
  intro vs
  induction vs with
  | nil => simp
  | cons v tl ih =>
    simp only [List.map_cons, List.cons_append, outOps, List.flatten_cons,
      List.append_eq]
    rw [show flagOp (Op.opValueInt w v) true = true from rfl, ih]
    simp [emitOp, commaEmit]

theorem outOps_valueInts_false (w : Nat) (rest : List Op) (vs : List Int) :
    outOps (vs.map (fun v => Op.opValueInt w v) ++ rest) false =
      (List.intersperse [44] (vs.map (writeIntBytes w))).flatten ++
        outOps rest (if vs.isEmpty then false else true) := by
  cases vs with
  | nil => simp
  | cons v tl =>
    simp only [List.map_cons, List.cons_append, outOps, List.isEmpty_cons,
      List.append_eq]
    rw [show flagOp (Op.opValueInt w v) false = true from rfl,
      outOps_valueInts_true w rest tl,
      intersperse_flatten [44] (writeIntBytes w v) (tl.map (writeIntBytes w))]
    simp [emitOp, commaEmit, List.map_map, Function.comp_def]

theorem outOps_addLits_true (w : Nat) (rest : List Op) :
    ∀ ps : List (List Nat × Int),
    outOps (ps.map (fun p => Op.opAddIntLit p.1 w p.2) ++ rest) true =
      (ps.map (fun p => 44 :: objItem w p)).flatten ++ outOps rest true := by
  intro ps
  induction ps with
  | nil => simp
  | cons p tl ih =>
    simp only [List.map_cons, List.cons_append, outOps, List.flatten_cons,
      List.append_eq]
    rw [show flagOp (Op.opAddIntLit p.1 w p.2) true = true from rfl, ih]
    simp [emitOp, commaEmit, keyEmit, objItem]

theorem outOps_addLits_false (w : Nat) (rest : List Op)
    (ps : List (List Nat × Int)) :
    outOps (ps.map (fun p => Op.opAddIntLit p.1 w p.2) ++ rest) false =
      (List.intersperse [44] (ps.map (objItem w))).flatten ++
        outOps rest (if ps.isEmpty then false else true) := by
  cases ps with
  | nil => simp
  | cons p tl =>
    simp only [List.map_cons, List.cons_append, outOps, List.isEmpty_cons,
      List.append_eq]
    rw [show flagOp (Op.opAddIntLit p.1 w p.2) false = true from rfl,
      outOps_addLits_true w rest tl,
      intersperse_flatten [44] (objItem w p) (tl.map (objItem w))]
    simp [emitOp, commaEmit, keyEmit, objItem, List.map_map, Function.comp_def]

/-! ### The claims -/

/-- C1 (counterexample): the claim says every control byte below 0x20 is
replaced with an escape sequence so that a JSON parser decodes the emitted
string back to the original bytes.  At input `[0x01]` the emission is the
bare `""` — the control byte is dropped, not escaped — and a standard
parser decodes it to the empty string, not `[0x01]`. -/
theorem C1_counterexample :
    str (valueString [1] Builder.init) = [34, 34] ∧
    unescapeString (str (valueString [1] Builder.init)) = some [] ∧
    some ([] : List Nat) ≠ some [1] := by
  have hs : str (valueString [1] Builder.init) = [34, 34] := by
    rw [(valueString_spec [1] Builder.init (Nat.zero_le _)).1]
    rfl
  refine ⟨hs, ?_, by decide⟩
  rw [hs]
  rfl

/-- C1 (amended): the escaped-string emission wraps the text in quotes,
replaces each of the seven named characters (double-quote, backslash,
backspace, form-feed, newline, carriage return, tab) with its two-character
escape sequence, REMOVES every other control byte below 0x20, and copies
all other bytes verbatim; a standard JSON parser decodes the emitted
string to the original byte sequence with exactly those removed control
bytes filtered out. -/
theorem C1_escape_roundtrip (s k : List Nat) (b : Builder) (hwf : Wf b) :
    str (valueString s b) = str b ++ (commaEmit b.need_comma ++ strEmit s) ∧
    str (addString k s b) = str b ++ (keyEmit b.need_comma k ++ strEmit s) ∧
    strEmit s = 34 :: (escSpec s ++ [34]) ∧
    unescapeString (strEmit s) = some (s.filter keepByte) ∧
    (∀ c : Nat, keepByte c = false ↔ (repl c = none ∧ c < 32)) := by
  refine ⟨(valueString_spec s b hwf).1, (addString_spec k s b hwf).1, rfl,
    unescapeString_strEmit s, ?_⟩
  intro c
  simp [keepByte, Option.isNone_iff_eq_none]

/-- C2: `writeInt` emits the exact decimal representation of the value for
any width up to 64 bits: `0` as `'0'`, a negative value as `'-'` followed
by the decimal digits of its magnitude (computed through the unsigned
cast, so the minimum representable value does not overflow), and a
positive value as its digits with no sign. -/
theorem C2_writeInt_decimal (w : Nat) (v : Int) (b : Builder) (hwf : Wf b)
    (hw1 : 1 ≤ w) (hw : w ≤ 64) (hlo : -(2 ^ (w - 1) : Int) ≤ v)
    (hhi : v < (2 ^ (w - 1) : Int)) :
    str (writeInt w v b) = str b ++
      ((if v < 0 then [45] else []) ++
        (if v = 0 then [48]
         else ((Nat.digits 10 v.natAbs).map (fun d => 48 + d)).reverse)) ∧
    Wf (writeInt w v b) := by
  obtain ⟨a1, _, _, _, a5⟩ := writeInt_spec w v b hw hwf
  rw [a1, writeIntBytes_eq w v hw1 hlo hhi]
  exact ⟨rfl, a5⟩

/-- C3: the pending-separator flag is false after construction, `clear`,
`start` and `startArray`; true after every completed value emission and
after `end`/`endArray`; `comma()` emits `','` exactly when the flag was
true and always leaves it true; a key emission leaves it false. -/
theorem C3_flag_invariant (b : Builder) (k s : List Nat) (w : Nat) (v : Int)
    (hwf : Wf b) (hw : w ≤ 64) :
    Builder.init.need_comma = false ∧
    (clear b).need_comma = false ∧
    (start b).need_comma = false ∧
    (startArray b).need_comma = false ∧
    (end_ b).need_comma = true ∧
    (endArray b).need_comma = true ∧
    (valueInt w v b).need_comma = true ∧
    (valueString s b).need_comma = true ∧
    (valueNull b).need_comma = true ∧
    (addInt k w v b).need_comma = true ∧
    (addString k s b).need_comma = true ∧
    (addNull k b).need_comma = true ∧
    (key k b).need_comma = false ∧
    str (comma b) = str b ++ (if b.need_comma then [44] else []) ∧
    (comma b).need_comma = true := by
  refine ⟨rfl, rfl, rfl, rfl, rfl, rfl, (valueInt_spec w v b hw hwf).2.1,
    (valueString_spec s b hwf).2.1, (valueNull_spec b hwf).2.1, rfl, rfl, rfl,
    rfl, (comma_spec b hwf).1, (comma_spec b hwf).2.1⟩

/-- C4: an array built as `startArray; value×N; endArray` serializes as
`[` the N integer encodings joined by single commas `]` — so exactly
`max(N-1,0)` separator commas, none leading or trailing; same for an
object of N `add` key/value pairs (whose keys contain no comma byte). -/
theorem C4_comma_placement (w : Nat) (vs : List Int)
    (ps : List (List Nat × Int)) (b : Builder) (hwf : Wf b) (hw : w ≤ 64)
    (hkeys : ∀ p ∈ ps, 44 ∉ p.1) :
    str (applyAll (Op.opStartArray ::
        (vs.map (fun v => Op.opValueInt w v) ++ [Op.opEndArray])) b) =
      str b ++ (commaEmit b.need_comma ++
        91 :: ((List.intersperse [44] (vs.map (writeIntBytes w))).flatten ++ [93])) ∧
    ((List.intersperse [44] (vs.map (writeIntBytes w))).flatten.count 44) =
      vs.length - 1 ∧
    str (applyAll (Op.opStart ::
        (ps.map (fun p => Op.opAddIntLit p.1 w p.2) ++ [Op.opEnd])) b) =
      str b ++ (commaEmit b.need_comma ++
        123 :: ((List.intersperse [44] (ps.map (objItem w))).flatten ++ [125])) ∧
    ((List.intersperse [44] (ps.map (objItem w))).flatten.count 44) =
      ps.length - 1 := by
  have hwops1 : ∀ op ∈ Op.opStartArray ::
      (vs.map (fun v => Op.opValueInt w v) ++ [Op.opEndArray]), op.wfOp := by
    intro op hop
    simp only [List.mem_cons, List.mem_append, List.mem_map,
      List.not_mem_nil, or_false] at hop
    rcases hop with rfl | ⟨v', _, rfl⟩ | rfl
    · trivial
    · exact hw
    · trivial
  have hwops2 : ∀ op ∈ Op.opStart ::
      (ps.map (fun p => Op.opAddIntLit p.1 w p.2) ++ [Op.opEnd]), op.wfOp := by
    intro op hop
    simp only [List.mem_cons, List.mem_append, List.mem_map,
      List.not_mem_nil, or_false] at hop
    rcases hop with rfl | ⟨p', _, rfl⟩ | rfl
    · trivial
    · exact hw
    · trivial
  have hout1 : outOps (Op.opStartArray ::
      (vs.map (fun v => Op.opValueInt w v) ++ [Op.opEndArray])) b.need_comma =
      commaEmit b.need_comma ++
        91 :: ((List.intersperse [44] (vs.map (writeIntBytes w))).flatten ++ [93]) := by
    simp only [outOps]
    rw [show flagOp Op.opStartArray b.need_comma = false from rfl,
      outOps_valueInts_false w [Op.opEndArray] vs]
    simp [emitOp, outOps]
  have hout2 : outOps (Op.opStart ::
      (ps.map (fun p => Op.opAddIntLit p.1 w p.2) ++ [Op.opEnd])) b.need_comma =
      commaEmit b.need_comma ++
        123 :: ((List.intersperse [44] (ps.map (objItem w))).flatten ++ [125]) := by
    simp only [outOps]
    rw [show flagOp Op.opStart b.need_comma = false from rfl,
      outOps_addLits_false w [Op.opEnd] ps]
    simp [emitOp, outOps]
  refine ⟨?_, ?_, ?_, ?_⟩
  · rw [(applyAll_spec _ b hwops1 hwf).1, hout1]
  · rw [count_flatten_intersperse (vs.map (writeIntBytes w))
      (by intro x hx; simp only [List.mem_map] at hx
          obtain ⟨v', _, rfl⟩ := hx
          exact writeIntBytes_no_comma w v')]
    simp
  · rw [(applyAll_spec _ b hwops2 hwf).1, hout2]
  · rw [count_flatten_intersperse (ps.map (objItem w))
      (by intro x hx; simp only [List.mem_map] at hx
          obtain ⟨p', hp', rfl⟩ := hx
          exact objItem_no_comma w p' (hkeys p' hp'))]
    simp

/-- C5: `ensure(n)` always leaves room for at least `n` more bytes at the
cursor, never shrinks the buffer, at least doubles it whenever it grows,
and every public operation writes only within the ensured capacity: the
bounds-checked interpreter `applyO`, whose `writeRawO` refuses (returns
`none` for) any memcpy that would touch a byte at or past `buf.length`,
succeeds on every operation and agrees with the unchecked semantics, and
the operation appends exactly its emission and preserves
`cursor ≤ capacity`. -/
theorem C5_capacity_safety (n : Nat) (b : Builder) (op : Op) (hwf : Wf b)
    (hop : op.wfOp) :
    b.cursor + n < (ensure n b).buf.length ∧
    (ensure n b).cursor = b.cursor ∧
    b.buf.length ≤ (ensure n b).buf.length ∧
    ((ensure n b).buf.length ≠ b.buf.length →
      2 * b.buf.length ≤ (ensure n b).buf.length) ∧
    str (apply op b) = str b ++ emitOp op b.need_comma ∧
    b.buf.length ≤ (apply op b).buf.length ∧
    Wf (apply op b) ∧
    applyO op b = some (apply op b) := by
  obtain ⟨a1, a2, a3, a4⟩ := apply_spec op b hop hwf
  exact ⟨ensure_cap n b, ensure_cursor n b, ensure_len_ge n b,
    ensure_grow n b, a1, a3, a4, applyO_eq op b hop hwf⟩

/-- C6: `addOrNull` emits exactly what `addNull` emits when the value
equals the sentinel, and exactly what the plain `add` emits otherwise;
`addStringOrNull` likewise with the empty string; key and separator
handling are identical to the non-null variants (for the literal-key
variant, the emitted bytes and resulting flag coincide). -/
theorem C6_or_null (k s : List Nat) (w : Nat) (v u : Int) (b : Builder)
    (hwf : Wf b) (hw : w ≤ 64) :
    (v = u → addOrNull k w v u b = addNull k b) ∧
    (v ≠ u → addOrNull k w v u b = addInt k w v b) ∧
    (s = [] → addStringOrNull k s b = addNull k b) ∧
    (s ≠ [] → addStringOrNull k s b = addString k s b) ∧
    str (addOrNull k w v u b) = str b ++ (keyEmit b.need_comma k ++
      (if v = u then nullBytes else writeIntBytes w v)) ∧
    str (addStringOrNullLit k s b) = str b ++ (keyEmit b.need_comma k ++
      (if s = [] then nullBytes else strEmit s)) ∧
    (s ≠ [] → str (addStringOrNullLit k s b) = str (addStringLit k s b) ∧
      (addStringOrNullLit k s b).need_comma =
        (addStringLit k s b).need_comma) := by
  refine ⟨?_, ?_, ?_, ?_, (addOrNull_spec k w v u b hw hwf).1,
    (addStringOrNullLit_spec k s b hwf).1, ?_⟩
  · intro hvu
    simp [addOrNull, addNull, hvu]
  · intro hvu
    simp [addOrNull, addInt, hvu]
  · intro hs
    simp [addStringOrNull, addNull, hs]
  · intro hs
    simp [addStringOrNull, addString, hs]
  · intro hs
    constructor
    · rw [(addStringOrNullLit_spec k s b hwf).1, (addStringLit_spec k s b hwf).1,
        if_neg hs]
    · rw [(addStringOrNullLit_spec k s b hwf).2.1,
        (addStringLit_spec k s b hwf).2.1]

/-- C7: with a false condition, `addIf` and `addStringIf` leave the whole
builder state — buffer, cursor and flag — untouched. -/
theorem C7_addIf_noop (k s : List Nat) (w : Nat) (v : Int) (b : Builder) :
    addIf false k w v b = b ∧ addStringIf false k s b = b :=
  ⟨rfl, rfl⟩

/-- C8: after `clear()`, any emission sequence produces the same bytes as
on a freshly constructed builder; `clear` zeroes the cursor and flag and
keeps the allocated buffer. -/
theorem C8_clear_fresh (ops : List Op) (b : Builder)
    (hops : ∀ op ∈ ops, op.wfOp) :
    str (applyAll ops (clear b)) = str (applyAll ops Builder.init) ∧
    str (applyAll ops (clear b)) = outOps ops false ∧
    (clear b).cursor = 0 ∧ (clear b).need_comma = false ∧
    (clear b).buf = b.buf := by
  have h1 := applyAll_spec ops (clear b) hops (Nat.zero_le _)
  have h2 := applyAll_spec ops Builder.init hops (Nat.zero_le _)
  have e1 : str (clear b) = [] := rfl
  have e2 : str Builder.init = [] := rfl
  refine ⟨?_, ?_, rfl, rfl, rfl⟩
  · rw [h1.1, h2.1, e1, e2]
    rfl
  · rw [h1.1, e1]
    rfl

/-- C9: `str()` returns exactly the bytes from offset 0 to the cursor as a
copy of length `size()`, and — being a pure read — emission after it
appends to the same prior output, exactly as if it had never been
called. -/
theorem C9_str_frame (b : Builder) (ops : List Op) (hwf : Wf b)
    (hops : ∀ op ∈ ops, op.wfOp) :
    str b = b.buf.take b.cursor ∧
    (str b).length = size b ∧
    str (applyAll ops b) = str b ++ outOps ops b.need_comma := by
  refine ⟨rfl, ?_, (applyAll_spec ops b hops hwf).1⟩
  simp only [str, size, List.length_take]
  exact Nat.min_eq_left hwf

/-- C10: a `NULL` C-string passed to `valueStringOrNull` or the literal-key
`addStringOrNull` takes the null branch without reading the pointer and
emits exactly what the empty string emits: the literal `null`. -/
theorem C10_null_cstring (k : List Nat) (b : Builder) (hwf : Wf b) :
    valueStringOrNullC none b = valueStringOrNullC (some []) b ∧
    addStringOrNullLitC k none b = addStringOrNullLitC k (some []) b ∧
    str (valueStringOrNullC none b) =
      str b ++ (commaEmit b.need_comma ++ nullBytes) ∧
    str (addStringOrNullLitC k none b) =
      str b ++ (keyEmit b.need_comma k ++ nullBytes) := by
  refine ⟨by simp [valueStringOrNullC], by simp [addStringOrNullLitC], ?_, ?_⟩
  · exact (valueStringOrNullC_spec none b hwf).1
  · exact (addStringOrNullLitC_spec k none b hwf).1

/-! ### Witnesses: the claims applied at concrete inputs -/

theorem C1_witness :
    str (valueString [65, 1, 34] Builder.init) = [34, 65, 92, 34, 34] ∧
    unescapeString (strEmit [65, 1, 34]) = some [65, 34] := by
  have h := C1_escape_roundtrip [65, 1, 34] [107] Builder.init (Nat.zero_le _)
  refine ⟨?_, ?_⟩
  · rw [h.1]
    rfl
  · rw [h.2.2.2.1]
    rfl

theorem C2_witness :
    Wf Builder.init ∧ (-(2 ^ (32 - 1) : Int) ≤ -2147483648) ∧
    ((-2147483648 : Int) < 2 ^ (32 - 1)) ∧
    str (writeInt 32 (-2147483648) Builder.init) =
      [45, 50, 49, 52, 55, 52, 56, 51, 54, 52, 56] := by
  refine ⟨Nat.zero_le _, by decide, by decide, ?_⟩
  rw [(C2_writeInt_decimal 32 (-2147483648) Builder.init (Nat.zero_le _)
    (by norm_num) (by norm_num) (by decide) (by decide)).1]
  have e1 : str Builder.init = [] := rfl
  have hab : Int.natAbs (-2147483648) = 2147483648 := rfl
  have hd : Nat.digits 10 2147483648 = [8, 4, 6, 3, 8, 4, 7, 4, 1, 2] := by simp
  rw [e1, hab, hd]
  norm_num

theorem C3_witness :
    (start Builder.init).need_comma = false ∧
    (valueInt 32 5 Builder.init).need_comma = true ∧
    str (comma Builder.init) = [] := by
  have h := C3_flag_invariant Builder.init [107] [97] 32 5 (Nat.zero_le _)
    (by norm_num)
  refine ⟨h.2.2.1, h.2.2.2.2.2.2.1, ?_⟩
  rw [h.2.2.2.2.2.2.2.2.2.2.2.2.2.1]
  rfl

theorem C4_witness :
    str (applyAll (Op.opStartArray ::
        (([1, 2] : List Int).map (fun v => Op.opValueInt 32 v) ++
          [Op.opEndArray])) Builder.init) =
      91 :: (writeIntBytes 32 1 ++ 44 :: (writeIntBytes 32 2 ++ [93])) ∧
    ((List.intersperse [44]
      (([1, 2] : List Int).map (writeIntBytes 32))).flatten.count 44) = 1 := by
  have h := C4_comma_placement 32 [1, 2] [([105], (7 : Int))] Builder.init
    (Nat.zero_le _) (by norm_num) (by decide)
  refine ⟨?_, ?_⟩
  · rw [h.1]
    simp
    rfl
  · rw [h.2.1]
    rfl

theorem C5_witness :
    Builder.init.cursor + 5 < (ensure 5 Builder.init).buf.length ∧
    str (apply Op.opValueNull Builder.init) = nullBytes ∧
    Wf (apply Op.opValueNull Builder.init) ∧
    applyO Op.opValueNull Builder.init =
      some (apply Op.opValueNull Builder.init) := by
  have h := C5_capacity_safety 5 Builder.init Op.opValueNull (Nat.zero_le _)
    trivial
  refine ⟨h.1, ?_, h.2.2.2.2.2.2.1, h.2.2.2.2.2.2.2⟩
  rw [h.2.2.2.2.1]
  rfl

theorem C6_witness :
    addOrNull [107] 32 5 5 Builder.init = addNull [107] Builder.init ∧
    str (addOrNull [107] 32 5 5 Builder.init) =
      [34, 107, 34, 58, 110, 117, 108, 108] := by
  have h := C6_or_null [107] [97] 32 5 5 Builder.init (Nat.zero_le _)
    (by norm_num)
  refine ⟨h.1 rfl, ?_⟩
  rw [h.2.2.2.2.1]
  rfl

theorem C8_witness :
    str (applyAll [Op.opStart, Op.opEnd] (clear (valueNull Builder.init))) =
      str (applyAll [Op.opStart, Op.opEnd] Builder.init) := by
  have hops : ∀ op ∈ [Op.opStart, Op.opEnd], op.wfOp := by
    intro op hop
    simp only [List.mem_cons, List.not_mem_nil, or_false] at hop
    rcases hop with rfl | rfl
    · trivial
    · trivial
  exact (C8_clear_fresh [Op.opStart, Op.opEnd] (valueNull Builder.init) hops).1

theorem C9_witness :
    (str (valueNull Builder.init)).length = size (valueNull Builder.init) ∧
    str (applyAll [Op.opValueNull] (valueNull Builder.init)) =
      str (valueNull Builder.init) ++
        outOps [Op.opValueNull] (valueNull Builder.init).need_comma := by
  have hwf : Wf (valueNull Builder.init) :=
    (valueNull_spec Builder.init (Nat.zero_le _)).2.2.2
  have h := C9_str_frame (valueNull Builder.init) [Op.opValueNull] hwf
    (by intro op hop
        simp only [List.mem_cons, List.not_mem_nil, or_false] at hop
        subst hop
        trivial)
  exact ⟨h.2.1, h.2.2⟩

theorem C10_witness :
    valueStringOrNullC none Builder.init =
      valueStringOrNullC (some []) Builder.init ∧
    str (valueStringOrNullC none Builder.init) = [110, 117, 108, 108] := by
  have h := C10_null_cstring [107] Builder.init (Nat.zero_le _)
  refine ⟨h.1, ?_⟩
  rw [h.2.2.1]
  rfl

end JSONB
